import Mathlib

/-!
# Shallow embedding of `matsuri_monitor/_supervisor.py`

The supervisor owns a registry of running monitors (an insertion-ordered
dictionary `live_monitors : BroadcastID → Monitor`), an in-memory list of
archived reports, and the last applied grouper snapshot.  `Supervisor.update`
performs one reconciliation cycle; `Supervisor.prune` drops old in-memory
archive entries.

External collaborators (the `clients.Jetri` discovery client, the
`clients.Monitor` worker, `chat.LiveReport`, `chat.Grouper`, the tornado
options, the filesystem and the wall clock) are modelled as a per-cycle
environment `Env`:

* `Env.groupers`   — the snapshot returned by `chat.Grouper.load()` this cycle;
* `Env.running`    — the ids whose monitor's `is_running` reports `true`;
* `Env.live`       — `jetri.currently_live` after `jetri.update()`;
* `Env.getInfo`    — `jetri.get_live_info`; `none` means the fetch raises;
* `Env.dumpChat`   — the `dump-chat` option;
* `Env.chatWriteOk`, `Env.reportWriteOk` — whether the gzip write of the chat
  dump / report file for a given id succeeds; `false` means it raises;
* `Env.now`        — `datetime.utcnow().timestamp()`;
* `Env.historyDays`— the `history-days` option.

Python exceptions propagate out of `update` (there is no try/except in it), so
each phase is modelled with an `aborted` flag: once a phase aborts, the
remaining statements of `update` do not run.  Side effects on collaborators
(`set_groupers`, `monitor.start`, `monitor.terminate`, `report.finalize`,
completed file writes, list appends) are recorded in an event trace.

Timestamps are integer unix seconds (`Int`); `datetime.fromtimestamp` is
modelled at UTC offset (its `YYYY-MM-DDTHH:MM:SS` shape, which is all the
claims depend on, is timezone independent).  Grouper snapshots are an
abstract value-comparable type, modelled as `Nat`.
-/

namespace Matsuri

/-- Grouper snapshots only need value equality; model them as `Nat`. -/
abbrev Groupers := Nat

/-- Broadcast metadata as used by `update`: `info.id` and `info.start_timestamp`. -/
structure Info where
  id : String
  start_timestamp : Int
deriving DecidableEq, Repr

/-- The slice of `chat.LiveReport` state that `Supervisor.update` reads or
writes: its metadata, `len(report)`, the grouper snapshot last assigned via
`set_groupers`, and whether `finalize()` has been called on it. -/
structure Report where
  info : Info
  length : Nat
  groupers : Groupers
  finalized : Bool
deriving DecidableEq, Repr

/-- A `clients.Monitor` as seen from the supervisor: it owns one report.
(Its `is_running` status is environment-driven, see `Env.running`.) -/
structure Monitor where
  report : Report
deriving DecidableEq, Repr

/-- Supervisor state: the `live_monitors` ordered dict (association list in
insertion order), `archive_reports`, and the current `groupers` snapshot. -/
structure SupState where
  live_monitors : List (String × Monitor)
  archive_reports : List Report
  groupers : Groupers
deriving DecidableEq, Repr

/-- Observable side effects of one `update` call, in program order. -/
inductive Event where
  /-- `monitor.report.set_groupers(new_groupers)` in the grouper-refresh loop. -/
  | setGroupersPropagate (vid : String) (g : Groupers)
  /-- `report.set_groupers(self.groupers)` on a freshly constructed report. -/
  | setGroupersConstruct (vid : String) (g : Groupers)
  /-- `monitor.start(current_ioloop)` for a new live. -/
  | start (vid : String)
  /-- `monitor.terminate()` for a stopped live. -/
  | terminate (vid : String)
  /-- `report.finalize()`. -/
  | finalize (vid : String)
  /-- completed gzip write of the chat dump for `vid` to file `name`. -/
  | writeChatFile (vid : String) (name : String)
  /-- completed gzip write of the report for `vid` to file `name`. -/
  | writeReportFile (vid : String) (name : String)
  /-- `self.archive_reports.append(report)` while archiving `vid`. -/
  | appendArchive (vid : String)
deriving DecidableEq, Repr

/-- Per-cycle environment (see module docstring). -/
structure Env where
  groupers : Groupers
  running : List String
  live : List String
  getInfo : String → Option Info
  dumpChat : Bool
  chatWriteOk : String → Bool
  reportWriteOk : String → Bool
  now : Int
  historyDays : Nat

/-- Result of a phase of `update`: the state, the events emitted, and whether
an exception aborted the phase (skipping everything after it). -/
structure CycleOut where
  state : SupState
  events : List Event
  aborted : Bool
deriving Repr

/-- `self.live_monitors[video_id]`, returning `none` when the key is absent. -/
def lookupId (vid : String) : List (String × Monitor) → Option Monitor
  | [] => none
  | (k, m) :: rest => if k = vid then some m else lookupId vid rest

/-- In-place value update of an ordered dict entry (`d[k]` is mutated through
the shared report object); keys and order are unchanged. -/
def updateMonitor (l : List (String × Monitor)) (vid : String) (m : Monitor) :
    List (String × Monitor) :=
  l.map (fun p => if p.1 = vid then (p.1, m) else p)

/-- Keys of the registry, in insertion order. -/
def trackedIds (s : SupState) : List String :=
  s.live_monitors.map Prod.fst

/-! ## Archive file naming

`datetime.fromtimestamp(ts).isoformat(timespec='seconds')` followed by
`f'{report_datetime}_{report.info.id}'.replace(':', '')`. -/

/-- Zero-pad a number to two digits, as `datetime.isoformat` does. -/
def pad2 (n : Nat) : String :=
  if n < 10 then "0" ++ toString n else toString n

/-- Zero-pad the year to four digits, as `datetime.isoformat` does. -/
def pad4 (n : Nat) : String :=
  if n < 10 then "000" ++ toString n
  else if n < 100 then "00" ++ toString n
  else if n < 1000 then "0" ++ toString n
  else toString n

/-- Civil date from days since the unix epoch (proleptic Gregorian). -/
def civilFromDays (z0 : Int) : Int × Nat × Nat :=
  let z := z0 + 719468
  let era := Int.fdiv z 146097
  let doe := (z - era * 146097).toNat
  let yoe := (doe - doe / 1460 + doe / 36524 - doe / 146096) / 365
  let doy := doe - (365 * yoe + yoe / 4 - yoe / 100)
  let mp := (5 * doy + 2) / 153
  let d := doy - (153 * mp + 2) / 5 + 1
  let m := if mp < 10 then mp + 3 else mp - 9
  ((yoe : Int) + era * 400 + (if m ≤ 2 then 1 else 0), m, d)

/-- `datetime.fromtimestamp(ts).isoformat(timespec='seconds')`, at UTC offset:
`YYYY-MM-DDTHH:MM:SS`. -/
def isoformatSeconds (ts : Int) : String :=
  let days := Int.fdiv ts 86400
  let secs := (Int.fmod ts 86400).toNat
  let c := civilFromDays days
  pad4 c.1.toNat ++ "-" ++ pad2 c.2.1 ++ "-" ++ pad2 c.2.2 ++ "T" ++
    pad2 (secs / 3600) ++ ":" ++ pad2 (secs % 3600 / 60) ++ ":" ++ pad2 (secs % 60)

/-- `.replace(':', '')`: for a one-character pattern and empty replacement,
Python's `str.replace` deletes every occurrence of that character. -/
def removeColons (s : String) : String :=
  String.mk (s.data.filter (fun c => c ≠ ':'))

/-- `f'{report_datetime}_{report.info.id}'.replace(':', '')` — note the
replace applies to the whole formatted string, id included. -/
def reportBasename (info : Info) : String :=
  removeColons (isoformatSeconds info.start_timestamp ++ "_" ++ info.id)

/-! ## The phases of `Supervisor.update`, in program order -/

/-- Grouper refresh: reload, and if the snapshot differs by value, push it to
every registered monitor's report, then record it as current. -/
def refreshGroupers (env : Env) (s : SupState) : SupState × List Event :=
  if env.groupers = s.groupers then (s, [])
  else
    ({ live_monitors :=
         s.live_monitors.map (fun p => (p.1, ⟨{ p.2.report with groupers := env.groupers }⟩)),
       archive_reports := s.archive_reports,
       groupers := env.groupers },
     s.live_monitors.map (fun p => Event.setGroupersPropagate p.1 env.groupers))

/-- Dead-monitor sweep: delete every registry entry whose monitor is not
running. -/
def sweepDead (env : Env) (s : SupState) : SupState :=
  { s with live_monitors := s.live_monitors.filter (fun p => decide (p.1 ∈ env.running)) }

/-- `new_lives = currently_live - currently_monitored` (set difference; one
deterministic iteration order is fixed for the unordered Python set). -/
def newLives (env : Env) (s2 : SupState) : List String :=
  env.live.dedup.filter (fun vid => decide (vid ∉ trackedIds s2))

/-- `stopped_lives = currently_monitored - currently_live`. -/
def stoppedLives (env : Env) (s2 : SupState) : List String :=
  (trackedIds s2).filter (fun vid => decide (vid ∉ env.live))

/-- The start loop: for each new live, fetch its metadata (a failed fetch
raises, aborting the loop), build a report, assign the current snapshot,
start a monitor and insert it into the registry. -/
def runStarts (env : Env) : List String → SupState → CycleOut
  | [], s => ⟨s, [], false⟩
  | vid :: rest, s =>
    match env.getInfo vid with
    | none => ⟨s, [], true⟩
    | some info =>
      let report : Report := ⟨info, 0, s.groupers, false⟩
      let s' : SupState :=
        { s with live_monitors := s.live_monitors ++ [(vid, ⟨report⟩)] }
      let out := runStarts env rest s'
      ⟨out.state, Event.setGroupersConstruct vid s.groupers :: Event.start vid :: out.events,
        out.aborted⟩

/-- The chat-dump events for one stopped broadcast (none when disabled). -/
def chatEvents (env : Env) (vid : String) (basename : String) : List Event :=
  if env.dumpChat then [Event.writeChatFile vid (basename ++ "_chat.json.gz")] else []

/-- State after `report.finalize()` while archiving `vid`: the registry entry
shares the report object, so it shows the finalized report too. -/
def finalizeState (s : SupState) (vid : String) (report : Report) : SupState :=
  { s with live_monitors := updateMonitor s.live_monitors vid ⟨{ report with finalized := true }⟩ }

/-- State after `self.archive_reports.append(report)` while archiving `vid`. -/
def archiveState (s : SupState) (vid : String) (report : Report) : SupState :=
  let s' := finalizeState s vid report
  { s' with archive_reports := s'.archive_reports ++ [{ report with finalized := true }] }

/-- Preconditions under which archiving `vid` raises no exception: the chat
dump write (when enabled) and the durable report write both succeed. -/
def goodStop (env : Env) (vid : String) : Prop :=
  (env.dumpChat = true → env.chatWriteOk vid = true) ∧ env.reportWriteOk vid = true

/-- Is `e` a construction-time `set_groupers` call for broadcast `vid`? -/
def isConstructFor (vid : String) : Event → Bool
  | .setGroupersConstruct v _ => v == vid
  | _ => false

/-- The stop loop: for each stopped live, signal terminate; if its report is
non-empty, optionally dump the chat, finalize the report, write the report
file and append it to the in-memory archive list.  A failed write raises,
aborting the loop (a missing registry key would likewise raise). -/
def runStops (env : Env) : List String → SupState → CycleOut
  | [], s => ⟨s, [], false⟩
  | vid :: rest, s =>
    match lookupId vid s.live_monitors with
    | none => ⟨s, [], true⟩
    | some monitor =>
      let report := monitor.report
      if report.length > 0 then
        let basename := reportBasename report.info
        if env.dumpChat && !env.chatWriteOk vid then
          ⟨s, [Event.terminate vid], true⟩
        else if env.reportWriteOk vid then
          let out := runStops env rest (archiveState s vid report)
          ⟨out.state,
            Event.terminate vid :: chatEvents env vid basename ++
              [Event.finalize vid, Event.writeReportFile vid (basename ++ ".json.gz"),
               Event.appendArchive vid] ++ out.events,
            out.aborted⟩
        else
          ⟨finalizeState s vid report,
            Event.terminate vid :: chatEvents env vid basename ++ [Event.finalize vid], true⟩
      else
        let out := runStops env rest s
        ⟨out.state, Event.terminate vid :: out.events, out.aborted⟩

/-- `Supervisor.prune`: keep only in-memory archive entries whose
`start_timestamp` is strictly newer than `now - history_days`. -/
def prune (env : Env) (s : SupState) : SupState :=
  let cutoff : Int := env.now - (env.historyDays : Int) * 86400
  { s with archive_reports :=
      s.archive_reports.filter (fun r => decide (r.info.start_timestamp > cutoff)) }

/-- The registry after the grouper refresh and the dead-monitor sweep; the
diff sets `newLives`/`stoppedLives` are computed against this state. -/
def postSweep (env : Env) (s : SupState) : SupState :=
  sweepDead env (refreshGroupers env s).1

/-- The start loop of one cycle, run on the post-sweep state. -/
def startsOut (env : Env) (s : SupState) : CycleOut :=
  runStarts env (newLives env (postSweep env s)) (postSweep env s)

/-- The stop loop of one cycle, run after the start loop.  (Its id list was
computed against the post-sweep state, before the start loop ran.) -/
def stopsOut (env : Env) (s : SupState) : CycleOut :=
  runStops env (stoppedLives env (postSweep env s)) (startsOut env s).state

/-- One full `Supervisor.update` cycle: grouper refresh, dead-monitor sweep,
discovery diff, start loop, stop loop, prune.  An exception in a loop aborts
everything after it (there is no exception handling in `update`), so an
abort in the start loop skips the stop loop, and any abort skips `prune`. -/
def updateOut (env : Env) (s : SupState) : CycleOut :=
  if (startsOut env s).aborted then
    ⟨(startsOut env s).state, (refreshGroupers env s).2 ++ (startsOut env s).events, true⟩
  else if (stopsOut env s).aborted then
    ⟨(stopsOut env s).state,
      (refreshGroupers env s).2 ++ (startsOut env s).events ++ (stopsOut env s).events, true⟩
  else
    ⟨prune env (stopsOut env s).state,
      (refreshGroupers env s).2 ++ (startsOut env s).events ++ (stopsOut env s).events, false⟩

/-! ## Concrete scenarios

Small closed instances used to exhibit counterexamples and to instantiate
the hypotheses of the general theorems. -/

/-- A broadcast `"A"` that stays live. -/
def infoA : Info := ⟨"A", 50⟩

/-- A broadcast `"B"` that leaves the live set. -/
def infoB : Info := ⟨"B", 60⟩

/-- Registry tracking `A` and `B`, both with non-empty reports. -/
def sAB : SupState :=
  { live_monitors :=
      [("A", ⟨⟨infoA, 3, 1, false⟩⟩), ("B", ⟨⟨infoB, 2, 1, false⟩⟩)],
    archive_reports := [], groupers := 1 }

/-- Both monitors still running, only `A` still live, no failures, groupers
unchanged. -/
def envLiveA : Env :=
  { groupers := 1, running := ["A", "B"], live := ["A"],
    getInfo := fun v => some ⟨v, 100⟩, dumpChat := false,
    chatWriteOk := fun _ => true, reportWriteOk := fun _ => true,
    now := 1000, historyDays := 7 }

/-- Like `envLiveA`, but a new live `"N"` appears whose metadata fetch
raises. -/
def envFetchFail : Env :=
  { groupers := 1, running := ["A", "B"], live := ["A", "N"],
    getInfo := fun v => if v = "N" then none else some ⟨v, 100⟩, dumpChat := false,
    chatWriteOk := fun _ => true, reportWriteOk := fun _ => true,
    now := 1000, historyDays := 7 }

/-- Like `envLiveA`, but the durable write of `B`'s report file raises. -/
def envWriteFail : Env :=
  { groupers := 1, running := ["A", "B"], live := ["A"],
    getInfo := fun v => some ⟨v, 100⟩, dumpChat := false,
    chatWriteOk := fun _ => true, reportWriteOk := fun v => !(v == "B"), now := 1000,
    historyDays := 7 }

/-- A broadcast whose id contains a colon. -/
def infoColon : Info := ⟨"a:b", 0⟩

/-- Registry tracking only the colon-id broadcast, with a non-empty report. -/
def sColon : SupState :=
  { live_monitors := [("a:b", ⟨⟨infoColon, 2, 1, false⟩⟩)],
    archive_reports := [], groupers := 1 }

/-- The colon-id broadcast's monitor still runs but it is no longer live. -/
def envColon : Env :=
  { groupers := 1, running := ["a:b"], live := [],
    getInfo := fun v => some ⟨v, 100⟩, dumpChat := false,
    chatWriteOk := fun _ => true, reportWriteOk := fun _ => true,
    now := 1000, historyDays := 7 }

/-- The cycle after `envLiveA`: `B`'s monitor has stopped running. -/
def envNextA : Env :=
  { groupers := 1, running := ["A"], live := ["A"],
    getInfo := fun v => some ⟨v, 100⟩, dumpChat := false,
    chatWriteOk := fun _ => true, reportWriteOk := fun _ => true,
    now := 1000, historyDays := 7 }

/-- The cycle after `envLiveA` in which `B`'s monitor STILL reports running
and `B` is still not live. -/
def envStillRunning : Env :=
  { groupers := 1, running := ["A", "B"], live := ["A"],
    getInfo := fun v => some ⟨v, 100⟩, dumpChat := false,
    chatWriteOk := fun _ => true, reportWriteOk := fun _ => true,
    now := 1000, historyDays := 7 }

/-- A cycle with a changed grouper snapshot and a new live `C`. -/
def envGroup : Env :=
  { groupers := 2, running := ["A", "B"], live := ["A", "B", "C"],
    getInfo := fun v => some ⟨v, 100⟩, dumpChat := false,
    chatWriteOk := fun _ => true, reportWriteOk := fun _ => true,
    now := 1000, historyDays := 7 }

/-- An already-archived report old enough to be pruned. -/
def oldReport : Report := ⟨⟨"O", 0⟩, 1, 1, true⟩

/-- An already-archived report new enough to be retained. -/
def newReport : Report := ⟨⟨"R", 700000⟩, 1, 1, true⟩

/-- State with two in-memory archive entries and nothing tracked. -/
def sArch : SupState :=
  { live_monitors := [], archive_reports := [oldReport, newReport], groupers := 1 }

/-- Environment whose prune cutoff (`700000 - 7*86400 = 95200`) separates
`oldReport` from `newReport`. -/
def envPrune : Env :=
  { groupers := 1, running := [], live := [], getInfo := fun _ => none,
    dumpChat := false, chatWriteOk := fun _ => true, reportWriteOk := fun _ => true,
    now := 700000, historyDays := 7 }

/-- Registry tracking `A` (non-empty report) and `B` (empty report). -/
def sEmptyB : SupState :=
  { live_monitors :=
      [("A", ⟨⟨infoA, 3, 1, false⟩⟩), ("B", ⟨⟨infoB, 0, 1, false⟩⟩)],
    archive_reports := [], groupers := 1 }

/-! ## Registry (association list) lemmas -/

theorem lookupId_cons (vid k : String) (mon : Monitor) (rest : List (String × Monitor)) :
    lookupId vid ((k, mon) :: rest) = if k = vid then some mon else lookupId vid rest := rfl

theorem lookupId_append_of_some (vid : String) {l : List (String × Monitor)}
    (l' : List (String × Monitor)) {m : Monitor} (h : lookupId vid l = some m) :
    lookupId vid (l ++ l') = some m := by
  induction l with
  | nil => simp [lookupId] at h
  | cons p rest ih =>
    obtain ⟨k, mon⟩ := p
    rw [List.cons_append, lookupId_cons]
    rw [lookupId_cons] at h
    by_cases hk : k = vid
    · simpa [hk] using h
    · simp only [hk, if_false] at h ⊢
      exact ih h

theorem lookupId_isSome_iff_mem (vid : String) (l : List (String × Monitor)) :
    (lookupId vid l).isSome ↔ vid ∈ l.map Prod.fst := by
  induction l with
  | nil => simp [lookupId]
  | cons p rest ih =>
    obtain ⟨k, mon⟩ := p
    rw [lookupId_cons]
    by_cases hk : k = vid
    · simp [hk]
    · simp only [hk, if_false, List.map_cons, List.mem_cons, ih]
      exact ⟨Or.inr, fun h => h.resolve_left (fun e => hk e.symm)⟩

theorem updateMonitor_keys (l : List (String × Monitor)) (vid : String) (m : Monitor) :
    (updateMonitor l vid m).map Prod.fst = l.map Prod.fst := by
  induction l with
  | nil => rfl
  | cons p rest ih =>
    obtain ⟨k, mon⟩ := p
    simp only [updateMonitor, List.map_cons] at ih ⊢
    by_cases hk : k = vid
    · subst hk
      simp [ih]
    · simp only [hk, if_false, List.map_cons, ih]

theorem lookupId_updateMonitor_ne (l : List (String × Monitor)) {vid k : String}
    (m : Monitor) (hne : k ≠ vid) :
    lookupId k (updateMonitor l vid m) = lookupId k l := by
  induction l with
  | nil => rfl
  | cons p rest ih =>
    obtain ⟨k', mon⟩ := p
    simp only [updateMonitor, List.map_cons] at ih ⊢
    by_cases hk : k' = vid
    · subst hk
      have hkk : k' ≠ k := fun h => hne h.symm
      simp [lookupId_cons, hkk, ih]
    · simp only [hk, if_false, lookupId_cons]
      by_cases hk2 : k' = k
      · simp [hk2]
      · simp only [hk2, if_false]
        exact ih

theorem lookupId_updateMonitor_self (l : List (String × Monitor)) (vid : String)
    (m : Monitor) (h : (lookupId vid l).isSome) :
    lookupId vid (updateMonitor l vid m) = some m := by
  induction l with
  | nil => simp [lookupId] at h
  | cons p rest ih =>
    obtain ⟨k, mon⟩ := p
    simp only [updateMonitor, List.map_cons] at ih ⊢
    by_cases hk : k = vid
    · simp [hk, lookupId_cons]
    · rw [lookupId_cons] at h
      simp only [hk, if_false] at h ⊢
      rw [lookupId_cons]
      simp only [hk, if_false]
      exact ih h

/-- A filter whose predicate depends only on the key commutes with lookup. -/
theorem lookupId_filter_key (l : List (String × Monitor)) (vid : String)
    (q : String → Bool) :
    lookupId vid (l.filter (fun p => q p.1)) =
      if q vid then lookupId vid l else none := by
  induction l with
  | nil => simp [lookupId]
  | cons p rest ih =>
    obtain ⟨k, mon⟩ := p
    by_cases hk : k = vid
    · subst hk
      by_cases hq : q k <;> simp [List.filter_cons, hq, lookupId_cons, ih]
    · by_cases hq : q k <;> simp [List.filter_cons, hq, lookupId_cons, hk, ih]

/-! ## Grouper-refresh lemmas -/

theorem refreshGroupers_groupers (env : Env) (s : SupState) :
    (refreshGroupers env s).1.groupers = env.groupers := by
  unfold refreshGroupers
  split
  · next h => exact h.symm
  · rfl

theorem refreshGroupers_keys (env : Env) (s : SupState) :
    trackedIds (refreshGroupers env s).1 = trackedIds s := by
  unfold refreshGroupers trackedIds
  split
  · rfl
  · simp

theorem refreshGroupers_archive (env : Env) (s : SupState) :
    (refreshGroupers env s).1.archive_reports = s.archive_reports := by
  unfold refreshGroupers
  split <;> rfl

theorem refreshGroupers_events_of_eq (env : Env) (s : SupState)
    (h : env.groupers = s.groupers) : (refreshGroupers env s).2 = [] := by
  simp [refreshGroupers, h]

theorem refreshGroupers_events_shape (env : Env) (s : SupState) :
    ∀ e ∈ (refreshGroupers env s).2,
      ∃ v, v ∈ trackedIds s ∧ e = Event.setGroupersPropagate v env.groupers := by
  intro e he
  unfold refreshGroupers at he
  split at he
  · simp at he
  · simp only [List.mem_map] at he
    obtain ⟨p, hp, rfl⟩ := he
    exact ⟨p.1, List.mem_map_of_mem Prod.fst hp, rfl⟩

theorem refreshGroupers_propagate_mem (env : Env) (s : SupState)
    (h : env.groupers ≠ s.groupers) {vid : String} {m : Monitor}
    (hm : (vid, m) ∈ s.live_monitors) :
    Event.setGroupersPropagate vid env.groupers ∈ (refreshGroupers env s).2 := by
  unfold refreshGroupers
  rw [if_neg h]
  exact List.mem_map_of_mem _ hm

/-! ## Sweep lemmas -/

theorem sweepDead_lookup (env : Env) (s : SupState) (vid : String) :
    lookupId vid (sweepDead env s).live_monitors =
      if vid ∈ env.running then lookupId vid s.live_monitors else none := by
  unfold sweepDead
  rw [lookupId_filter_key s.live_monitors vid (fun k => decide (k ∈ env.running))]
  by_cases h : vid ∈ env.running <;> simp [h]

theorem mem_trackedIds_sweepDead (env : Env) (s : SupState) (vid : String) :
    vid ∈ trackedIds (sweepDead env s) ↔ vid ∈ trackedIds s ∧ vid ∈ env.running := by
  unfold sweepDead trackedIds
  constructor
  · intro h
    simp only [List.mem_map] at h
    obtain ⟨p, hp, rfl⟩ := h
    rw [List.mem_filter] at hp
    exact ⟨List.mem_map_of_mem Prod.fst hp.1, by simpa using hp.2⟩
  · rintro ⟨h1, h2⟩
    simp only [List.mem_map] at h1 ⊢
    obtain ⟨p, hp, rfl⟩ := h1
    exact ⟨p, List.mem_filter.mpr ⟨hp, by simpa using h2⟩, rfl⟩

/-! ## Prune lemmas -/

theorem prune_live_monitors (env : Env) (s : SupState) :
    (prune env s).live_monitors = s.live_monitors := rfl

theorem prune_groupers (env : Env) (s : SupState) :
    (prune env s).groupers = s.groupers := rfl

theorem mem_prune_iff (env : Env) (s : SupState) (r : Report) :
    r ∈ (prune env s).archive_reports ↔
      r ∈ s.archive_reports ∧
        r.info.start_timestamp > env.now - (env.historyDays : Int) * 86400 := by
  unfold prune
  simp [List.mem_filter]

theorem prune_sublist (env : Env) (s : SupState) :
    (prune env s).archive_reports.Sublist s.archive_reports :=
  List.filter_sublist s.archive_reports

/-! ## Start-loop lemmas -/

theorem runStarts_groupers (env : Env) (l : List String) (s : SupState) :
    (runStarts env l s).state.groupers = s.groupers := by
  induction l generalizing s with
  | nil => rfl
  | cons v rest ih =>
    unfold runStarts
    cases env.getInfo v with
    | none => rfl
    | some info => exact ih _

theorem runStarts_archive (env : Env) (l : List String) (s : SupState) :
    (runStarts env l s).state.archive_reports = s.archive_reports := by
  induction l generalizing s with
  | nil => rfl
  | cons v rest ih =>
    unfold runStarts
    cases env.getInfo v with
    | none => rfl
    | some info => exact ih _

theorem runStarts_lookup_of_some (env : Env) (l : List String) (s : SupState)
    {vid : String} {m : Monitor} (h : lookupId vid s.live_monitors = some m) :
    lookupId vid (runStarts env l s).state.live_monitors = some m := by
  induction l generalizing s with
  | nil => exact h
  | cons v rest ih =>
    unfold runStarts
    cases env.getInfo v with
    | none => exact h
    | some info => exact ih _ (lookupId_append_of_some vid _ h)

theorem runStarts_keys_bound (env : Env) (l : List String) (s : SupState)
    {k : String} (h : k ∈ trackedIds (runStarts env l s).state) :
    k ∈ trackedIds s ∨ (k ∈ l ∧ (env.getInfo k).isSome) := by
  induction l generalizing s with
  | nil => exact Or.inl h
  | cons v rest ih =>
    unfold runStarts at h
    cases hv : env.getInfo v with
    | none =>
      rw [hv] at h
      exact Or.inl h
    | some info =>
      rw [hv] at h
      rcases ih _ h with h1 | h1
      · unfold trackedIds at h1
        simp only [List.map_append, List.mem_append] at h1
        rcases h1 with h2 | h2
        · exact Or.inl h2
        · simp only [List.map_cons, List.map_nil, List.mem_singleton] at h2
          rw [h2]
          exact Or.inr ⟨List.mem_cons_self _ _, by simp [hv]⟩
      · exact Or.inr ⟨List.mem_cons_of_mem v h1.1, h1.2⟩

theorem runStarts_keys_mono (env : Env) (l : List String) (s : SupState)
    {k : String} (h : k ∈ trackedIds s) :
    k ∈ trackedIds (runStarts env l s).state := by
  induction l generalizing s with
  | nil => exact h
  | cons v rest ih =>
    unfold runStarts
    cases env.getInfo v with
    | none => exact h
    | some info =>
      refine ih _ ?_
      unfold trackedIds at h ⊢
      simp only [List.map_append, List.mem_append]
      exact Or.inl h

theorem runStarts_not_aborted (env : Env) (l : List String) (s : SupState)
    (h : ∀ v ∈ l, (env.getInfo v).isSome) : (runStarts env l s).aborted = false := by
  induction l generalizing s with
  | nil => rfl
  | cons v rest ih =>
    unfold runStarts
    cases hv : env.getInfo v with
    | none =>
      have := h v (List.mem_cons_self v rest)
      rw [hv] at this
      simp at this
    | some info => exact ih _ (fun v' hv' => h v' (List.mem_cons_of_mem v hv'))

theorem runStarts_events_shape (env : Env) (l : List String) (s : SupState) :
    ∀ e ∈ (runStarts env l s).events,
      ∃ v, v ∈ l ∧ (e = Event.setGroupersConstruct v s.groupers ∨ e = Event.start v) := by
  induction l generalizing s with
  | nil => intro e he; simp [runStarts] at he
  | cons v rest ih =>
    intro e he
    unfold runStarts at he
    cases hv : env.getInfo v with
    | none =>
      rw [hv] at he
      simp at he
    | some info =>
      rw [hv] at he
      simp only [List.mem_cons] at he
      rcases he with rfl | rfl | he
      · exact ⟨v, List.mem_cons_self v rest, Or.inl rfl⟩
      · exact ⟨v, List.mem_cons_self v rest, Or.inr rfl⟩
      · obtain ⟨v', hv', hshape⟩ := ih _ e he
        exact ⟨v', List.mem_cons_of_mem v hv', hshape⟩

theorem runStarts_construct_mem (env : Env) (l : List String) (s : SupState)
    (hall : ∀ v ∈ l, (env.getInfo v).isSome) {vid : String} (hmem : vid ∈ l) :
    Event.setGroupersConstruct vid s.groupers ∈ (runStarts env l s).events := by
  induction l generalizing s with
  | nil => simp at hmem
  | cons v rest ih =>
    unfold runStarts
    cases hv : env.getInfo v with
    | none =>
      have := hall v (List.mem_cons_self v rest)
      rw [hv] at this
      simp at this
    | some info =>
      rcases List.mem_cons.mp hmem with rfl | hmem'
      · exact List.mem_cons_self _ _
      · refine List.mem_cons_of_mem _ (List.mem_cons_of_mem _ ?_)
        exact ih _ (fun v' hv' => hall v' (List.mem_cons_of_mem v hv')) hmem'

/-! ## Stop-loop step lemmas

One equation per control-flow outcome of the loop body, so that later proofs
never unfold `runStops` directly. -/

theorem runStops_cons_none (env : Env) (v : String) (rest : List String) (s : SupState)
    (h : lookupId v s.live_monitors = none) :
    runStops env (v :: rest) s = ⟨s, [], true⟩ := by
  conv_lhs => unfold runStops
  rw [h]

theorem runStops_cons_empty (env : Env) (v : String) (rest : List String) (s : SupState)
    {mon : Monitor} (h : lookupId v s.live_monitors = some mon)
    (hlen : mon.report.length = 0) :
    runStops env (v :: rest) s =
      ⟨(runStops env rest s).state, Event.terminate v :: (runStops env rest s).events,
        (runStops env rest s).aborted⟩ := by
  conv_lhs => unfold runStops
  rw [h]
  simp [hlen]

theorem runStops_cons_chatFail (env : Env) (v : String) (rest : List String) (s : SupState)
    {mon : Monitor} (h : lookupId v s.live_monitors = some mon)
    (hlen : 0 < mon.report.length) (hd : env.dumpChat = true)
    (hc : env.chatWriteOk v = false) :
    runStops env (v :: rest) s = ⟨s, [Event.terminate v], true⟩ := by
  conv_lhs => unfold runStops
  rw [h]
  simp [hlen, hd, hc]

theorem runStops_cons_writeFail (env : Env) (v : String) (rest : List String) (s : SupState)
    {mon : Monitor} (h : lookupId v s.live_monitors = some mon)
    (hlen : 0 < mon.report.length)
    (hchat : env.dumpChat = true → env.chatWriteOk v = true)
    (hw : env.reportWriteOk v = false) :
    runStops env (v :: rest) s =
      ⟨finalizeState s v mon.report,
        Event.terminate v :: chatEvents env v (reportBasename mon.report.info) ++
          [Event.finalize v], true⟩ := by
  conv_lhs => unfold runStops
  rw [h]
  have hcc : (env.dumpChat && !env.chatWriteOk v) = false := by
    cases hdc : env.dumpChat
    · simp
    · simp [hchat hdc]
  simp [hlen, hcc, hw]

theorem runStops_cons_ok (env : Env) (v : String) (rest : List String) (s : SupState)
    {mon : Monitor} (h : lookupId v s.live_monitors = some mon)
    (hlen : 0 < mon.report.length)
    (hchat : env.dumpChat = true → env.chatWriteOk v = true)
    (hw : env.reportWriteOk v = true) :
    runStops env (v :: rest) s =
      ⟨(runStops env rest (archiveState s v mon.report)).state,
        Event.terminate v :: chatEvents env v (reportBasename mon.report.info) ++
          [Event.finalize v,
           Event.writeReportFile v (reportBasename mon.report.info ++ ".json.gz"),
           Event.appendArchive v] ++ (runStops env rest (archiveState s v mon.report)).events,
        (runStops env rest (archiveState s v mon.report)).aborted⟩ := by
  conv_lhs => unfold runStops
  rw [h]
  have hcc : (env.dumpChat && !env.chatWriteOk v) = false := by
    cases hdc : env.dumpChat
    · simp
    · simp [hchat hdc]
  simp [hlen, hcc, hw]

/-! ## Facts about the intermediate archive states -/

theorem finalizeState_keys (s : SupState) (vid : String) (r : Report) :
    trackedIds (finalizeState s vid r) = trackedIds s :=
  updateMonitor_keys s.live_monitors vid _

theorem archiveState_keys (s : SupState) (vid : String) (r : Report) :
    trackedIds (archiveState s vid r) = trackedIds s :=
  updateMonitor_keys s.live_monitors vid _

theorem archiveState_groupers (s : SupState) (vid : String) (r : Report) :
    (archiveState s vid r).groupers = s.groupers := rfl

theorem archiveState_archive (s : SupState) (vid : String) (r : Report) :
    (archiveState s vid r).archive_reports =
      s.archive_reports ++ [{ r with finalized := true }] := rfl

theorem archiveState_lookup_ne (s : SupState) (vid k : String) (r : Report)
    (hne : k ≠ vid) :
    lookupId k (archiveState s vid r).live_monitors = lookupId k s.live_monitors :=
  lookupId_updateMonitor_ne s.live_monitors _ hne

theorem archiveState_lookup_self (s : SupState) (vid : String) (r : Report)
    (h : (lookupId vid s.live_monitors).isSome) :
    lookupId vid (archiveState s vid r).live_monitors =
      some ⟨{ r with finalized := true }⟩ :=
  lookupId_updateMonitor_self s.live_monitors vid _ h

theorem finalizeState_archive (s : SupState) (vid : String) (r : Report) :
    (finalizeState s vid r).archive_reports = s.archive_reports := rfl

theorem finalizeState_groupers (s : SupState) (vid : String) (r : Report) :
    (finalizeState s vid r).groupers = s.groupers := rfl

theorem mem_chatEvents {env : Env} {v b : String} {e : Event}
    (h : e ∈ chatEvents env v b) : e = Event.writeChatFile v (b ++ "_chat.json.gz") := by
  unfold chatEvents at h
  split at h <;> simp_all

theorem chatOk_of_not_fail {env : Env} {v : String}
    (h : ¬(env.dumpChat = true ∧ env.chatWriteOk v = false)) :
    env.dumpChat = true → env.chatWriteOk v = true := by
  intro hd
  rcases Bool.eq_false_or_eq_true (env.chatWriteOk v) with hc | hc
  · exact hc
  · exact absurd ⟨hd, hc⟩ h

theorem reportWriteOk_false_of_not_true {env : Env} {v : String}
    (h : ¬env.reportWriteOk v = true) : env.reportWriteOk v = false := by
  rcases Bool.eq_false_or_eq_true (env.reportWriteOk v) with h2 | h2
  · exact absurd h2 h
  · exact h2

/-- Stop-loop invariants: the grouper snapshot and the registry key list are
preserved, the archive list only grows, and every emitted event is a
stop-phase event tagged with an id from the processed list. -/
theorem runStops_preserves (env : Env) (l : List String) (s : SupState) :
    (runStops env l s).state.groupers = s.groupers ∧
    trackedIds (runStops env l s).state = trackedIds s ∧
    (∀ r ∈ s.archive_reports, r ∈ (runStops env l s).state.archive_reports) ∧
    (∀ e ∈ (runStops env l s).events,
      ∃ v, v ∈ l ∧
        (e = Event.terminate v ∨ e = Event.finalize v ∨
         (∃ n, e = Event.writeChatFile v n) ∨ (∃ n, e = Event.writeReportFile v n) ∨
         e = Event.appendArchive v)) := by
  induction l generalizing s with
  | nil =>
    exact ⟨rfl, rfl, fun _ hr => hr, fun e he => by simp [runStops] at he⟩
  | cons v rest ih =>
    cases hlk : lookupId v s.live_monitors with
    | none =>
      rw [runStops_cons_none env v rest s hlk]
      exact ⟨rfl, rfl, fun _ hr => hr, fun e he => by simp at he⟩
    | some mon =>
      by_cases hlen : 0 < mon.report.length
      · by_cases hcf : env.dumpChat = true ∧ env.chatWriteOk v = false
        · rw [runStops_cons_chatFail env v rest s hlk hlen hcf.1 hcf.2]
          refine ⟨rfl, rfl, fun _ hr => hr, fun e he => ?_⟩
          simp only [List.mem_singleton] at he
          exact ⟨v, List.mem_cons_self v rest, Or.inl he⟩
        · have hchat := chatOk_of_not_fail hcf
          by_cases hw : env.reportWriteOk v = true
          · rw [runStops_cons_ok env v rest s hlk hlen hchat hw]
            obtain ⟨ihg, ihk, iha, ihe⟩ := ih (archiveState s v mon.report)
            refine ⟨?_, ?_, ?_, ?_⟩
            · rw [ihg, archiveState_groupers]
            · rw [ihk, archiveState_keys]
            · intro r hr
              refine iha r ?_
              rw [archiveState_archive]
              exact List.mem_append_left _ hr
            · intro e he
              rcases List.mem_cons.mp he with rfl | he1
              · exact ⟨v, List.mem_cons_self v rest, Or.inl rfl⟩
              · rcases List.mem_append.mp he1 with he2 | he3
                · rcases List.mem_append.mp he2 with hc | hf
                  · exact ⟨v, List.mem_cons_self v rest,
                      Or.inr (Or.inr (Or.inl ⟨_, mem_chatEvents hc⟩))⟩
                  · rcases List.mem_cons.mp hf with rfl | hf1
                    · exact ⟨v, List.mem_cons_self v rest, Or.inr (Or.inl rfl)⟩
                    · rcases List.mem_cons.mp hf1 with rfl | hf2
                      · exact ⟨v, List.mem_cons_self v rest,
                          Or.inr (Or.inr (Or.inr (Or.inl ⟨_, rfl⟩)))⟩
                      · rcases List.mem_singleton.mp hf2 with rfl
                        exact ⟨v, List.mem_cons_self v rest,
                          Or.inr (Or.inr (Or.inr (Or.inr rfl)))⟩
                · obtain ⟨v', hv', hs⟩ := ihe e he3
                  exact ⟨v', List.mem_cons_of_mem v hv', hs⟩
          · rw [runStops_cons_writeFail env v rest s hlk hlen hchat
              (reportWriteOk_false_of_not_true hw)]
            refine ⟨rfl, finalizeState_keys s v mon.report, fun _ hr => hr, fun e he => ?_⟩
            rcases List.mem_cons.mp he with rfl | he1
            · exact ⟨v, List.mem_cons_self v rest, Or.inl rfl⟩
            · rcases List.mem_append.mp he1 with hc | hf
              · exact ⟨v, List.mem_cons_self v rest,
                  Or.inr (Or.inr (Or.inl ⟨_, mem_chatEvents hc⟩))⟩
              · rcases List.mem_singleton.mp hf with rfl
                exact ⟨v, List.mem_cons_self v rest, Or.inr (Or.inl rfl)⟩
      · have hlen0 : mon.report.length = 0 := Nat.eq_zero_of_not_pos hlen
        rw [runStops_cons_empty env v rest s hlk hlen0]
        obtain ⟨ihg, ihk, iha, ihe⟩ := ih s
        refine ⟨ihg, ihk, iha, fun e he => ?_⟩
        rcases List.mem_cons.mp he with rfl | he'
        · exact ⟨v, List.mem_cons_self v rest, Or.inl rfl⟩
        · obtain ⟨v', hv', hs⟩ := ihe e he'
          exact ⟨v', List.mem_cons_of_mem v hv', hs⟩

/-- Processing other ids never touches `vid`'s registry entry. -/
theorem runStops_lookup_of_not_mem (env : Env) (l : List String) (s : SupState)
    {vid : String} (hnm : vid ∉ l) {m : Monitor}
    (h : lookupId vid s.live_monitors = some m) :
    lookupId vid (runStops env l s).state.live_monitors = some m := by
  induction l generalizing s with
  | nil => exact h
  | cons v rest ih =>
    have hvne : vid ≠ v := fun e => hnm (e ▸ List.mem_cons_self v rest)
    have hrest : vid ∉ rest := fun hr => hnm (List.mem_cons_of_mem v hr)
    cases hlk : lookupId v s.live_monitors with
    | none =>
      rw [runStops_cons_none env v rest s hlk]
      exact h
    | some mon =>
      by_cases hlen : 0 < mon.report.length
      · by_cases hcf : env.dumpChat = true ∧ env.chatWriteOk v = false
        · rw [runStops_cons_chatFail env v rest s hlk hlen hcf.1 hcf.2]
          exact h
        · have hchat := chatOk_of_not_fail hcf
          by_cases hw : env.reportWriteOk v = true
          · rw [runStops_cons_ok env v rest s hlk hlen hchat hw]
            refine ih _ hrest ?_
            rw [archiveState_lookup_ne s v vid mon.report hvne]
            exact h
          · rw [runStops_cons_writeFail env v rest s hlk hlen hchat
              (reportWriteOk_false_of_not_true hw)]
            show lookupId vid (updateMonitor s.live_monitors v _) = some m
            rw [lookupId_updateMonitor_ne s.live_monitors _ hvne]
            exact h
      · rw [runStops_cons_empty env v rest s hlk (Nat.eq_zero_of_not_pos hlen)]
        exact ih _ hrest h

/-- When every stopped id is tracked and either archives cleanly or has an
empty report, the stop loop raises nothing and terminates every id. -/
theorem runStops_ok_general (env : Env) (l : List String) (s : SupState)
    (h : ∀ v ∈ l, v ∈ trackedIds s ∧
      (goodStop env v ∨ ∃ m, lookupId v s.live_monitors = some m ∧ m.report.length = 0)) :
    (runStops env l s).aborted = false ∧
      ∀ v ∈ l, Event.terminate v ∈ (runStops env l s).events := by
  induction l generalizing s with
  | nil => exact ⟨rfl, fun v hv => absurd hv (List.not_mem_nil v)⟩
  | cons v rest ih =>
    obtain ⟨hkey, hdisj⟩ := h v (List.mem_cons_self v rest)
    have hlks : (lookupId v s.live_monitors).isSome :=
      (lookupId_isSome_iff_mem v s.live_monitors).mpr hkey
    cases hlk : lookupId v s.live_monitors with
    | none =>
      rw [hlk] at hlks
      simp at hlks
    | some mon =>
      by_cases hlen : 0 < mon.report.length
      · have hgood : goodStop env v := by
          rcases hdisj with hg | ⟨m, hm, hml⟩
          · exact hg
          · rw [hlk] at hm
            injection hm with hm2
            subst hm2
            omega
        rw [runStops_cons_ok env v rest s hlk hlen hgood.1 hgood.2]
        have hrest : ∀ v' ∈ rest, v' ∈ trackedIds (archiveState s v mon.report) ∧
            (goodStop env v' ∨
              ∃ m, lookupId v' (archiveState s v mon.report).live_monitors = some m ∧
                m.report.length = 0) := by
          intro v' hv'
          obtain ⟨hk', hd'⟩ := h v' (List.mem_cons_of_mem v hv')
          refine ⟨by rw [archiveState_keys]; exact hk', ?_⟩
          rcases hd' with hg | ⟨m, hm, hml⟩
          · exact Or.inl hg
          · by_cases hvv : v' = v
            · subst hvv
              rw [hlk] at hm
              injection hm with hm2
              subst hm2
              omega
            · exact Or.inr ⟨m, by rw [archiveState_lookup_ne s v v' mon.report hvv]; exact hm,
                hml⟩
        obtain ⟨ihab, ihterm⟩ := ih _ hrest
        refine ⟨ihab, fun v' hv' => ?_⟩
        rcases List.mem_cons.mp hv' with rfl | hv2
        · exact List.mem_cons_self _ _
        · exact List.mem_cons_of_mem _ (List.mem_append_right _ (ihterm v' hv2))
      · rw [runStops_cons_empty env v rest s hlk (Nat.eq_zero_of_not_pos hlen)]
        obtain ⟨ihab, ihterm⟩ := ih _ (fun v' hv' => h v' (List.mem_cons_of_mem v hv'))
        refine ⟨ihab, fun v' hv' => ?_⟩
        rcases List.mem_cons.mp hv' with rfl | hv2
        · exact List.mem_cons_self _ _
        · exact List.mem_cons_of_mem _ (ihterm v' hv2)

/-- A stopped id with a non-empty report, in a loop where every id is tracked
and archives cleanly: it is terminated, finalized, written and appended, its
registry entry now shows the finalized report, and the finalized report is in
the in-memory archive list. -/
theorem runStops_archives (env : Env) (l : List String) (s : SupState)
    {vid : String} {mon : Monitor}
    (hnd : l.Nodup) (hmem : vid ∈ l)
    (hkeys : ∀ v ∈ l, v ∈ trackedIds s)
    (hgood : ∀ v ∈ l, goodStop env v)
    (hlk : lookupId vid s.live_monitors = some mon)
    (hlen : 0 < mon.report.length) :
    Event.terminate vid ∈ (runStops env l s).events ∧
    Event.finalize vid ∈ (runStops env l s).events ∧
    Event.writeReportFile vid (reportBasename mon.report.info ++ ".json.gz") ∈
      (runStops env l s).events ∧
    Event.appendArchive vid ∈ (runStops env l s).events ∧
    lookupId vid (runStops env l s).state.live_monitors =
      some ⟨{ mon.report with finalized := true }⟩ ∧
    { mon.report with finalized := true } ∈ (runStops env l s).state.archive_reports := by
  induction l generalizing s with
  | nil => simp at hmem
  | cons v rest ih =>
    rcases List.mem_cons.mp hmem with rfl | hmem2
    · have hgv := hgood vid (List.mem_cons_self vid rest)
      rw [runStops_cons_ok env vid rest s hlk hlen hgv.1 hgv.2]
      have hnm : vid ∉ rest := (List.nodup_cons.mp hnd).1
      have hlk2 : lookupId vid (archiveState s vid mon.report).live_monitors =
          some ⟨{ mon.report with finalized := true }⟩ :=
        archiveState_lookup_self s vid mon.report (by rw [hlk]; rfl)
      obtain ⟨_, _, harcm, _⟩ := runStops_preserves env rest (archiveState s vid mon.report)
      refine ⟨List.mem_cons_self _ _,
        List.mem_cons_of_mem _ (List.mem_append_left _ (List.mem_append_right _ ?_)),
        List.mem_cons_of_mem _ (List.mem_append_left _ (List.mem_append_right _ ?_)),
        List.mem_cons_of_mem _ (List.mem_append_left _ (List.mem_append_right _ ?_)),
        runStops_lookup_of_not_mem env rest _ hnm hlk2, ?_⟩
      · exact List.mem_cons_self _ _
      · exact List.mem_cons_of_mem _ (List.mem_cons_self _ _)
      · exact List.mem_cons_of_mem _ (List.mem_cons_of_mem _ (List.mem_singleton.mpr rfl))
      · refine harcm _ ?_
        rw [archiveState_archive]
        exact List.mem_append_right _ (List.mem_singleton.mpr rfl)
    · have hvne : vid ≠ v := fun e => (List.nodup_cons.mp hnd).1 (e ▸ hmem2)
      have hkv : v ∈ trackedIds s := hkeys v (List.mem_cons_self v rest)
      have hlkv : (lookupId v s.live_monitors).isSome :=
        (lookupId_isSome_iff_mem v s.live_monitors).mpr hkv
      cases hlk2 : lookupId v s.live_monitors with
      | none =>
        rw [hlk2] at hlkv
        simp at hlkv
      | some monv =>
        have hgv := hgood v (List.mem_cons_self v rest)
        by_cases hlenv : 0 < monv.report.length
        · rw [runStops_cons_ok env v rest s hlk2 hlenv hgv.1 hgv.2]
          have hrest := ih (archiveState s v monv.report) (List.nodup_cons.mp hnd).2 hmem2
            (fun v' hv' => by
              rw [archiveState_keys]
              exact hkeys v' (List.mem_cons_of_mem v hv'))
            (fun v' hv' => hgood v' (List.mem_cons_of_mem v hv'))
            (by rw [archiveState_lookup_ne s v vid monv.report hvne]; exact hlk)
          obtain ⟨h1, h2, h3, h4, h5, h6⟩ := hrest
          exact ⟨List.mem_cons_of_mem _ (List.mem_append_right _ h1),
            List.mem_cons_of_mem _ (List.mem_append_right _ h2),
            List.mem_cons_of_mem _ (List.mem_append_right _ h3),
            List.mem_cons_of_mem _ (List.mem_append_right _ h4), h5, h6⟩
        · rw [runStops_cons_empty env v rest s hlk2 (Nat.eq_zero_of_not_pos hlenv)]
          have hrest := ih s (List.nodup_cons.mp hnd).2 hmem2
            (fun v' hv' => hkeys v' (List.mem_cons_of_mem v hv'))
            (fun v' hv' => hgood v' (List.mem_cons_of_mem v hv'))
            hlk
          obtain ⟨h1, h2, h3, h4, h5, h6⟩ := hrest
          exact ⟨List.mem_cons_of_mem _ h1, List.mem_cons_of_mem _ h2,
            List.mem_cons_of_mem _ h3, List.mem_cons_of_mem _ h4, h5, h6⟩

/-- A stopped id whose report is empty is only terminated: it is never
finalized, no file of its is written, and nothing is appended for it. -/
theorem runStops_empty_silent (env : Env) (l : List String) (s : SupState)
    {vid : String} {mon : Monitor}
    (hlk : lookupId vid s.live_monitors = some mon)
    (hlen : mon.report.length = 0) :
    Event.finalize vid ∉ (runStops env l s).events ∧
    Event.appendArchive vid ∉ (runStops env l s).events ∧
    (∀ n, Event.writeChatFile vid n ∉ (runStops env l s).events) ∧
    (∀ n, Event.writeReportFile vid n ∉ (runStops env l s).events) := by
  induction l generalizing s with
  | nil =>
    refine ⟨?_, ?_, fun n => ?_, fun n => ?_⟩ <;> simp [runStops]
  | cons v rest ih =>
    by_cases hv : v = vid
    · subst hv
      rw [runStops_cons_empty env v rest s hlk hlen]
      obtain ⟨i1, i2, i3, i4⟩ := ih s hlk
      refine ⟨?_, ?_, fun n => ?_, fun n => ?_⟩ <;> intro hc <;>
        rcases List.mem_cons.mp hc with he | he <;>
        first
          | exact Event.noConfusion he
          | exact i1 he
          | exact i2 he
          | exact i3 n he
          | exact i4 n he
    · cases hlk2 : lookupId v s.live_monitors with
      | none =>
        rw [runStops_cons_none env v rest s hlk2]
        refine ⟨?_, ?_, fun n => ?_, fun n => ?_⟩ <;> simp
      | some monv =>
        by_cases hlenv : 0 < monv.report.length
        · by_cases hcf : env.dumpChat = true ∧ env.chatWriteOk v = false
          · rw [runStops_cons_chatFail env v rest s hlk2 hlenv hcf.1 hcf.2]
            refine ⟨?_, ?_, fun n => ?_, fun n => ?_⟩ <;> intro hc <;>
              rcases List.mem_singleton.mp hc with he <;> exact Event.noConfusion he
          · have hchat := chatOk_of_not_fail hcf
            by_cases hw : env.reportWriteOk v = true
            · rw [runStops_cons_ok env v rest s hlk2 hlenv hchat hw]
              obtain ⟨i1, i2, i3, i4⟩ := ih (archiveState s v monv.report)
                (by rw [archiveState_lookup_ne s v vid monv.report
                    (fun e => hv e.symm)]; exact hlk)
              refine ⟨?_, ?_, fun n => ?_, fun n => ?_⟩ <;> intro hc <;>
                rcases List.mem_cons.mp hc with he | he <;>
                [skip; skip; skip; skip; skip; skip; skip; skip] <;>
                first
                  | exact Event.noConfusion he
                  | (rcases List.mem_append.mp he with he2 | he3
                     · rcases List.mem_append.mp he2 with hcv | hfv
                       · have := mem_chatEvents hcv
                         first
                           | exact Event.noConfusion this
                           | (injection this with hid _; exact hv hid.symm)
                       · rcases List.mem_cons.mp hfv with hfe | hfv2
                         · first
                             | exact Event.noConfusion hfe
                             | (injection hfe with hid; exact hv hid.symm)
                             | (injection hfe with hid _; exact hv hid.symm)
                         · rcases List.mem_cons.mp hfv2 with hfe2 | hfv3
                           · first
                               | exact Event.noConfusion hfe2
                               | (injection hfe2 with hid; exact hv hid.symm)
                               | (injection hfe2 with hid _; exact hv hid.symm)
                           · rcases List.mem_singleton.mp hfv3 with hfe3
                             first
                               | exact Event.noConfusion hfe3
                               | (injection hfe3 with hid; exact hv hid.symm)
                     · first
                         | exact i1 he3
                         | exact i2 he3
                         | exact i3 n he3
                         | exact i4 n he3)
            · rw [runStops_cons_writeFail env v rest s hlk2 hlenv hchat
                (reportWriteOk_false_of_not_true hw)]
              refine ⟨?_, ?_, fun n => ?_, fun n => ?_⟩ <;> intro hc <;>
                rcases List.mem_cons.mp hc with he | he <;>
                [skip; skip; skip; skip; skip; skip; skip; skip] <;>
                first
                  | exact Event.noConfusion he
                  | (rcases List.mem_append.mp he with hcv | hfv
                     · have := mem_chatEvents hcv
                       first
                         | exact Event.noConfusion this
                         | (injection this with hid _; exact hv hid.symm)
                     · rcases List.mem_singleton.mp hfv with hfe
                       first
                         | exact Event.noConfusion hfe
                         | (injection hfe with hid; exact hv hid.symm))
        · rw [runStops_cons_empty env v rest s hlk2 (Nat.eq_zero_of_not_pos hlenv)]
          obtain ⟨i1, i2, i3, i4⟩ := ih s hlk
          refine ⟨?_, ?_, fun n => ?_, fun n => ?_⟩ <;> intro hc <;>
            rcases List.mem_cons.mp hc with he | he <;>
            first
              | exact Event.noConfusion he
              | exact i1 he
              | exact i2 he
              | exact i3 n he
              | exact i4 n he

/-- A stopped id with a non-empty report whose durable report write fails:
the report is finalized, but nothing is appended for it, and the cycle
aborts. -/
theorem runStops_write_fail (env : Env) (l : List String) (s : SupState)
    {vid : String} {mon : Monitor}
    (hnd : l.Nodup) (hmem : vid ∈ l)
    (hkeys : ∀ v ∈ l, v ∈ trackedIds s)
    (hgood : ∀ v ∈ l, v ≠ vid → goodStop env v)
    (hchat : env.dumpChat = true → env.chatWriteOk vid = true)
    (hw : env.reportWriteOk vid = false)
    (hlk : lookupId vid s.live_monitors = some mon)
    (hlen : 0 < mon.report.length) :
    Event.finalize vid ∈ (runStops env l s).events ∧
    Event.appendArchive vid ∉ (runStops env l s).events ∧
    (runStops env l s).aborted = true := by
  induction l generalizing s with
  | nil => simp at hmem
  | cons v rest ih =>
    rcases List.mem_cons.mp hmem with rfl | hmem2
    · rw [runStops_cons_writeFail env vid rest s hlk hlen hchat hw]
      refine ⟨List.mem_cons_of_mem _ (List.mem_append_right _ (List.mem_singleton.mpr rfl)),
        ?_, rfl⟩
      intro hc
      rcases List.mem_cons.mp hc with he | he
      · exact Event.noConfusion he
      · rcases List.mem_append.mp he with hcv | hfv
        · exact Event.noConfusion (mem_chatEvents hcv)
        · exact Event.noConfusion (List.mem_singleton.mp hfv)
    · have hvne : vid ≠ v := fun e => (List.nodup_cons.mp hnd).1 (e ▸ hmem2)
      have hkv : v ∈ trackedIds s := hkeys v (List.mem_cons_self v rest)
      have hlkv : (lookupId v s.live_monitors).isSome :=
        (lookupId_isSome_iff_mem v s.live_monitors).mpr hkv
      cases hlk2 : lookupId v s.live_monitors with
      | none =>
        rw [hlk2] at hlkv
        simp at hlkv
      | some monv =>
        have hgv := hgood v (List.mem_cons_self v rest) (fun e => hvne e.symm)
        by_cases hlenv : 0 < monv.report.length
        · rw [runStops_cons_ok env v rest s hlk2 hlenv hgv.1 hgv.2]
          have hrest := ih (archiveState s v monv.report) (List.nodup_cons.mp hnd).2 hmem2
            (fun v' hv' => by
              rw [archiveState_keys]
              exact hkeys v' (List.mem_cons_of_mem v hv'))
            (fun v' hv' hne => hgood v' (List.mem_cons_of_mem v hv') hne)
            (by rw [archiveState_lookup_ne s v vid monv.report hvne]; exact hlk)
          obtain ⟨h1, h2, h3⟩ := hrest
          refine ⟨List.mem_cons_of_mem _ (List.mem_append_right _ h1), ?_, h3⟩
          intro hc
          rcases List.mem_cons.mp hc with he | he
          · exact Event.noConfusion he
          · rcases List.mem_append.mp he with he2 | he3
            · rcases List.mem_append.mp he2 with hcv | hfv
              · exact Event.noConfusion (mem_chatEvents hcv)
              · rcases List.mem_cons.mp hfv with hfe | hfv2
                · exact Event.noConfusion hfe
                · rcases List.mem_cons.mp hfv2 with hfe2 | hfv3
                  · exact Event.noConfusion hfe2
                  · have := List.mem_singleton.mp hfv3
                    injection this with hid
                    exact hvne hid
            · exact h2 he3
        · rw [runStops_cons_empty env v rest s hlk2 (Nat.eq_zero_of_not_pos hlenv)]
          have hrest := ih s (List.nodup_cons.mp hnd).2 hmem2
            (fun v' hv' => hkeys v' (List.mem_cons_of_mem v hv'))
            (fun v' hv' hne => hgood v' (List.mem_cons_of_mem v hv') hne)
            hlk
          obtain ⟨h1, h2, h3⟩ := hrest
          refine ⟨List.mem_cons_of_mem _ h1, ?_, h3⟩
          intro hc
          rcases List.mem_cons.mp hc with he | he
          · exact Event.noConfusion he
          · exact h2 he

/-! ## Counting construction-time `set_groupers` calls -/

theorem runStarts_construct_count_zero (env : Env) (l : List String) (s : SupState)
    {vid : String} (hnm : vid ∉ l) :
    (runStarts env l s).events.countP (isConstructFor vid) = 0 := by
  induction l generalizing s with
  | nil => rfl
  | cons v rest ih =>
    have hvne : v ≠ vid := fun e => hnm (e ▸ List.mem_cons_self v rest)
    have hrest : vid ∉ rest := fun hr => hnm (List.mem_cons_of_mem v hr)
    unfold runStarts
    cases env.getInfo v with
    | none => rfl
    | some info =>
      simp only [List.countP_cons]
      have h1 : isConstructFor vid (Event.setGroupersConstruct v s.groupers) = false := by
        simp [isConstructFor, hvne]
      have h2 : isConstructFor vid (Event.start v) = false := by
        simp [isConstructFor]
      rw [h1, h2]
      simp [ih _ hrest]

theorem runStarts_construct_count_one (env : Env) (l : List String) (s : SupState)
    {vid : String} (hnd : l.Nodup) (hmem : vid ∈ l)
    (hall : ∀ v ∈ l, (env.getInfo v).isSome) :
    (runStarts env l s).events.countP (isConstructFor vid) = 1 := by
  induction l generalizing s with
  | nil => simp at hmem
  | cons v rest ih =>
    unfold runStarts
    cases hv : env.getInfo v with
    | none =>
      have := hall v (List.mem_cons_self v rest)
      rw [hv] at this
      simp at this
    | some info =>
      simp only [List.countP_cons]
      rcases List.mem_cons.mp hmem with rfl | hmem2
      · have h1 : isConstructFor vid (Event.setGroupersConstruct vid s.groupers) = true := by
          simp [isConstructFor]
        have h2 : isConstructFor vid (Event.start vid) = false := by
          simp [isConstructFor]
        rw [h1, h2, runStarts_construct_count_zero env rest _ (List.nodup_cons.mp hnd).1]
        simp
      · have hvne : v ≠ vid := fun e => (List.nodup_cons.mp hnd).1 (e ▸ hmem2)
        have h1 : isConstructFor vid (Event.setGroupersConstruct v s.groupers) = false := by
          simp [isConstructFor, hvne]
        have h2 : isConstructFor vid (Event.start v) = false := by
          simp [isConstructFor]
        rw [h1, h2, ih _ (List.nodup_cons.mp hnd).2 hmem2
          (fun v' hv' => hall v' (List.mem_cons_of_mem v hv'))]
        simp

/-! ## Diff-set and post-sweep lemmas -/

theorem mem_newLives_iff (env : Env) (s2 : SupState) (vid : String) :
    vid ∈ newLives env s2 ↔ vid ∈ env.live ∧ vid ∉ trackedIds s2 := by
  simp [newLives, List.mem_filter, List.mem_dedup]

theorem mem_stoppedLives_iff (env : Env) (s2 : SupState) (vid : String) :
    vid ∈ stoppedLives env s2 ↔ vid ∈ trackedIds s2 ∧ vid ∉ env.live := by
  simp [stoppedLives, List.mem_filter]

theorem newLives_nodup (env : Env) (s2 : SupState) : (newLives env s2).Nodup :=
  (env.live.nodup_dedup).filter _

theorem stoppedLives_nodup (env : Env) (s2 : SupState)
    (h : (trackedIds s2).Nodup) : (stoppedLives env s2).Nodup :=
  h.filter _

theorem mem_trackedIds_postSweep (env : Env) (s : SupState) (vid : String) :
    vid ∈ trackedIds (postSweep env s) ↔ vid ∈ trackedIds s ∧ vid ∈ env.running := by
  unfold postSweep
  rw [mem_trackedIds_sweepDead, refreshGroupers_keys]

theorem postSweep_groupers (env : Env) (s : SupState) :
    (postSweep env s).groupers = env.groupers :=
  refreshGroupers_groupers env s

theorem postSweep_archive (env : Env) (s : SupState) :
    (postSweep env s).archive_reports = s.archive_reports :=
  refreshGroupers_archive env s

theorem postSweep_keys_nodup (env : Env) (s : SupState)
    (h : (trackedIds s).Nodup) : (trackedIds (postSweep env s)).Nodup := by
  have h2 : (trackedIds (refreshGroupers env s).1).Nodup := by
    rw [refreshGroupers_keys]
    exact h
  exact List.Nodup.sublist (List.Sublist.map Prod.fst (List.filter_sublist _)) h2

/-! ## Whole-cycle decomposition lemmas -/

theorem updateOut_events_decomp (env : Env) (s : SupState) :
    (updateOut env s).events =
        (refreshGroupers env s).2 ++ (startsOut env s).events ++ (stopsOut env s).events ∨
      (updateOut env s).events = (refreshGroupers env s).2 ++ (startsOut env s).events := by
  unfold updateOut
  by_cases h1 : (startsOut env s).aborted
  · simp [h1]
  · by_cases h2 : (stopsOut env s).aborted <;> simp [h1, h2]

theorem mem_updateOut_events (env : Env) (s : SupState) {e : Event}
    (he : e ∈ (updateOut env s).events) :
    e ∈ (refreshGroupers env s).2 ∨ e ∈ (startsOut env s).events ∨
      e ∈ (stopsOut env s).events := by
  rcases updateOut_events_decomp env s with hd | hd <;> rw [hd] at he
  · rcases List.mem_append.mp he with h1 | h2
    · rcases List.mem_append.mp h1 with h3 | h4
      · exact Or.inl h3
      · exact Or.inr (Or.inl h4)
    · exact Or.inr (Or.inr h2)
  · rcases List.mem_append.mp he with h1 | h2
    · exact Or.inl h1
    · exact Or.inr (Or.inl h2)

theorem updateOut_events_of_ok (env : Env) (s : SupState)
    (h : (startsOut env s).aborted = false) :
    (updateOut env s).events =
      (refreshGroupers env s).2 ++ (startsOut env s).events ++ (stopsOut env s).events := by
  unfold updateOut
  by_cases h2 : (stopsOut env s).aborted <;> simp [h, h2]

theorem updateOut_state_of_ok (env : Env) (s : SupState)
    (h1 : (startsOut env s).aborted = false) (h2 : (stopsOut env s).aborted = false) :
    (updateOut env s).state = prune env (stopsOut env s).state := by
  unfold updateOut
  simp [h1, h2]

theorem updateOut_state_of_stops_aborted (env : Env) (s : SupState)
    (h1 : (startsOut env s).aborted = false) (h2 : (stopsOut env s).aborted = true) :
    (updateOut env s).state = (stopsOut env s).state := by
  unfold updateOut
  simp [h1, h2]

/-! ## More start-loop and cycle-level lemmas -/

theorem runStarts_aborted_of_fail (env : Env) (l : List String) (s : SupState)
    {vid : String} (hmem : vid ∈ l) (hfail : env.getInfo vid = none) :
    (runStarts env l s).aborted = true := by
  induction l generalizing s with
  | nil => simp at hmem
  | cons v rest ih =>
    unfold runStarts
    cases hv : env.getInfo v with
    | none => rfl
    | some info =>
      rcases List.mem_cons.mp hmem with rfl | hmem2
      · rw [hv] at hfail
        exact Option.noConfusion hfail
      · exact ih _ hmem2

theorem updateOut_of_starts_aborted (env : Env) (s : SupState)
    (h : (startsOut env s).aborted = true) :
    updateOut env s =
      ⟨(startsOut env s).state, (refreshGroupers env s).2 ++ (startsOut env s).events,
        true⟩ := by
  unfold updateOut
  simp [h]

/-- The cycle always ends (normally or by exception) with the freshly loaded
grouper snapshot recorded as current. -/
theorem updateOut_groupers (env : Env) (s : SupState) :
    (updateOut env s).state.groupers = env.groupers := by
  have hps : (postSweep env s).groupers = env.groupers := postSweep_groupers env s
  have h1 : (startsOut env s).state.groupers = env.groupers := by
    rw [startsOut, runStarts_groupers]
    exact hps
  have h2 : (stopsOut env s).state.groupers = env.groupers := by
    rw [stopsOut, (runStops_preserves env _ _).1]
    exact h1
  unfold updateOut
  by_cases hb1 : (startsOut env s).aborted
  · simpa [hb1] using h1
  · by_cases hb2 : (stopsOut env s).aborted
    · simpa [hb1, hb2] using h2
    · simpa [hb1, hb2, prune_groupers] using h2

/-- The start loop appends some of the new ids at the end of the registry. -/
theorem runStarts_keys_decomp (env : Env) (l : List String) (s : SupState) :
    ∃ ks, trackedIds (runStarts env l s).state = trackedIds s ++ ks ∧
      ∀ k ∈ ks, k ∈ l := by
  induction l generalizing s with
  | nil => exact ⟨[], (List.append_nil _).symm, by simp⟩
  | cons v rest ih =>
    unfold runStarts
    cases hv : env.getInfo v with
    | none => exact ⟨[], (List.append_nil _).symm, by simp⟩
    | some info =>
      obtain ⟨ks, hks, hsub⟩ := ih _
      refine ⟨v :: ks, ?_, ?_⟩
      · rw [hks]
        unfold trackedIds
        simp
      · intro k hk
        rcases List.mem_cons.mp hk with rfl | hk2
        · exact List.mem_cons_self _ _
        · exact List.mem_cons_of_mem _ (hsub k hk2)

theorem runStarts_keys_nodup (env : Env) (l : List String) (s : SupState)
    (hnd : (trackedIds s).Nodup) (hnew : ∀ v ∈ l, v ∉ trackedIds s) (hl : l.Nodup) :
    (trackedIds (runStarts env l s).state).Nodup := by
  induction l generalizing s with
  | nil => exact hnd
  | cons v rest ih =>
    unfold runStarts
    cases hv : env.getInfo v with
    | none => exact hnd
    | some info =>
      refine ih _ ?_ ?_ (List.nodup_cons.mp hl).2
      · unfold trackedIds
        simp only [List.map_append, List.map_cons, List.map_nil]
        rw [List.nodup_append]
        refine ⟨hnd, List.nodup_singleton _, ?_⟩
        intro a ha hb
        rcases List.mem_singleton.mp hb with rfl
        exact hnew a (List.mem_cons_self _ _) ha
      · intro v' hv'
        unfold trackedIds
        simp only [List.map_append, List.map_cons, List.map_nil, List.mem_append,
          List.mem_singleton]
        rintro (h | h)
        · exact hnew v' (List.mem_cons_of_mem _ hv') h
        · exact (List.nodup_cons.mp hl).1 (h ▸ hv')

/-- Registry keys stay duplicate-free across a cycle. -/
theorem updateOut_keys_nodup (env : Env) (s : SupState)
    (hnd : (trackedIds s).Nodup) :
    (trackedIds (updateOut env s).state).Nodup := by
  have hps := postSweep_keys_nodup env s hnd
  have h1 : (trackedIds (startsOut env s).state).Nodup := by
    refine runStarts_keys_nodup env _ _ hps ?_ (newLives_nodup env _)
    intro v hv
    exact ((mem_newLives_iff env _ v).mp hv).2
  have h2 : (trackedIds (stopsOut env s).state).Nodup := by
    rw [stopsOut, (runStops_preserves env _ _).2.1]
    exact h1
  unfold updateOut
  by_cases ha1 : (startsOut env s).aborted
  · simpa [ha1] using h1
  · by_cases ha2 : (stopsOut env s).aborted
    · simpa [ha1, ha2] using h2
    · simpa [ha1, ha2, prune_live_monitors, trackedIds] using h2

/-- An id that is neither running nor live is absent from the registry right
after the cycle. -/
theorem updateOut_not_tracked (env : Env) (s : SupState) (vid : String)
    (hrun : vid ∉ env.running) (hlive : vid ∉ env.live) :
    vid ∉ trackedIds (updateOut env s).state := by
  intro hmem
  have hb : vid ∈ trackedIds (startsOut env s).state := by
    unfold updateOut at hmem
    by_cases h1 : (startsOut env s).aborted
    · simpa [h1] using hmem
    · by_cases h2 : (stopsOut env s).aborted
      · rw [if_neg (by simp [h1]), if_pos (by simp [h2])] at hmem
        rw [← (runStops_preserves env _ _).2.1]
        exact hmem
      · rw [if_neg (by simp [h1]), if_neg (by simp [h2])] at hmem
        rw [← (runStops_preserves env _ _).2.1]
        simpa [prune_live_monitors, trackedIds] using hmem
  rcases runStarts_keys_bound env _ _ hb with h | h
  · exact hrun ((mem_trackedIds_postSweep env s vid).mp h).2
  · exact hlive ((mem_newLives_iff env _ vid).mp h.1).1

/-- An id surviving the sweep is still in the registry right after the cycle. -/
theorem updateOut_tracked_mono (env : Env) (s : SupState) (vid : String)
    (h : vid ∈ trackedIds (postSweep env s)) :
    vid ∈ trackedIds (updateOut env s).state := by
  have hb : vid ∈ trackedIds (startsOut env s).state := runStarts_keys_mono env _ _ h
  unfold updateOut
  by_cases h1 : (startsOut env s).aborted
  · simpa [h1] using hb
  · by_cases h2 : (stopsOut env s).aborted
    · rw [if_neg (by simp [h1]), if_pos (by simp [h2])]
      show vid ∈ trackedIds (stopsOut env s).state
      have hkeq : trackedIds (stopsOut env s).state =
          trackedIds (startsOut env s).state := (runStops_preserves env _ _).2.1
      rw [hkeq]
      exact hb
    · rw [if_neg (by simp [h1]), if_neg (by simp [h2])]
      show vid ∈ trackedIds (prune env (stopsOut env s).state)
      have hp : trackedIds (prune env (stopsOut env s).state) =
          trackedIds (stopsOut env s).state := by
        simp [prune_live_monitors, trackedIds]
      have hkeq : trackedIds (stopsOut env s).state =
          trackedIds (startsOut env s).state := (runStops_preserves env _ _).2.1
      rw [hp, hkeq]
      exact hb

/-- Every file name emitted by the stop loop is the colon-stripped basename
of some report metadata plus the fixed suffix. -/
theorem runStops_file_names (env : Env) (l : List String) (s : SupState) :
    ∀ e ∈ (runStops env l s).events,
      (∀ v n, e = Event.writeReportFile v n →
        ∃ info, n = reportBasename info ++ ".json.gz") ∧
      (∀ v n, e = Event.writeChatFile v n →
        ∃ info, n = reportBasename info ++ "_chat.json.gz") := by
  induction l generalizing s with
  | nil => intro e he; simp [runStops] at he
  | cons v rest ih =>
    intro e he
    cases hlk : lookupId v s.live_monitors with
    | none =>
      rw [runStops_cons_none env v rest s hlk] at he
      simp at he
    | some mon =>
      by_cases hlen : 0 < mon.report.length
      · by_cases hcf : env.dumpChat = true ∧ env.chatWriteOk v = false
        · rw [runStops_cons_chatFail env v rest s hlk hlen hcf.1 hcf.2] at he
          rcases List.mem_singleton.mp he with rfl
          exact ⟨fun v' n h => Event.noConfusion h, fun v' n h => Event.noConfusion h⟩
        · have hchat := chatOk_of_not_fail hcf
          by_cases hw : env.reportWriteOk v = true
          · rw [runStops_cons_ok env v rest s hlk hlen hchat hw] at he
            rcases List.mem_cons.mp he with rfl | he1
            · exact ⟨fun v' n h => Event.noConfusion h, fun v' n h => Event.noConfusion h⟩
            · rcases List.mem_append.mp he1 with he2 | he3
              · rcases List.mem_append.mp he2 with hcv | hfv
                · have := mem_chatEvents hcv
                  subst this
                  refine ⟨fun v' n h => Event.noConfusion h, fun v' n h => ?_⟩
                  injection h with h1 h2
                  exact ⟨mon.report.info, h2.symm⟩
                · rcases List.mem_cons.mp hfv with rfl | hf1
                  · exact ⟨fun v' n h => Event.noConfusion h,
                      fun v' n h => Event.noConfusion h⟩
                  · rcases List.mem_cons.mp hf1 with rfl | hf2
                    · refine ⟨fun v' n h => ?_, fun v' n h => Event.noConfusion h⟩
                      injection h with h1 h2
                      exact ⟨mon.report.info, h2.symm⟩
                    · rcases List.mem_singleton.mp hf2 with rfl
                      exact ⟨fun v' n h => Event.noConfusion h,
                        fun v' n h => Event.noConfusion h⟩
              · exact ih _ e he3
          · rw [runStops_cons_writeFail env v rest s hlk hlen hchat
              (reportWriteOk_false_of_not_true hw)] at he
            rcases List.mem_cons.mp he with rfl | he1
            · exact ⟨fun v' n h => Event.noConfusion h, fun v' n h => Event.noConfusion h⟩
            · rcases List.mem_append.mp he1 with hcv | hfv
              · have := mem_chatEvents hcv
                subst this
                refine ⟨fun v' n h => Event.noConfusion h, fun v' n h => ?_⟩
                injection h with h1 h2
                exact ⟨mon.report.info, h2.symm⟩
              · rcases List.mem_singleton.mp hfv with rfl
                exact ⟨fun v' n h => Event.noConfusion h, fun v' n h => Event.noConfusion h⟩
      · rw [runStops_cons_empty env v rest s hlk (Nat.eq_zero_of_not_pos hlen)] at he
        rcases List.mem_cons.mp he with rfl | he'
        · exact ⟨fun v' n h => Event.noConfusion h, fun v' n h => Event.noConfusion h⟩
        · exact ih _ e he'

/-- The stop loop only ever appends to the archive list. -/
theorem runStops_archive_only_appends (env : Env) (l : List String) (s : SupState) :
    ∃ ap, (runStops env l s).state.archive_reports = s.archive_reports ++ ap := by
  induction l generalizing s with
  | nil => exact ⟨[], (List.append_nil _).symm⟩
  | cons v rest ih =>
    cases hlk : lookupId v s.live_monitors with
    | none =>
      rw [runStops_cons_none env v rest s hlk]
      exact ⟨[], (List.append_nil _).symm⟩
    | some mon =>
      by_cases hlen : 0 < mon.report.length
      · by_cases hcf : env.dumpChat = true ∧ env.chatWriteOk v = false
        · rw [runStops_cons_chatFail env v rest s hlk hlen hcf.1 hcf.2]
          exact ⟨[], (List.append_nil _).symm⟩
        · have hchat := chatOk_of_not_fail hcf
          by_cases hw : env.reportWriteOk v = true
          · rw [runStops_cons_ok env v rest s hlk hlen hchat hw]
            obtain ⟨ap, hap⟩ := ih (archiveState s v mon.report)
            refine ⟨{ mon.report with finalized := true } :: ap, ?_⟩
            rw [hap, archiveState_archive]
            simp
          · rw [runStops_cons_writeFail env v rest s hlk hlen hchat
              (reportWriteOk_false_of_not_true hw)]
            exact ⟨[], (List.append_nil _).symm⟩
      · rw [runStops_cons_empty env v rest s hlk (Nat.eq_zero_of_not_pos hlen)]
        exact ih s

/-- The stop loop only appends to the archive list, and under the conditions
of `runStops_archives` the finalized report is among the appended entries. -/
theorem runStops_archive_append_mem (env : Env) (l : List String) (s : SupState)
    {vid : String} {mon : Monitor}
    (hnd : l.Nodup) (hmem : vid ∈ l)
    (hkeys : ∀ v ∈ l, v ∈ trackedIds s)
    (hgood : ∀ v ∈ l, goodStop env v)
    (hlk : lookupId vid s.live_monitors = some mon)
    (hlen : 0 < mon.report.length) :
    ∃ ap, (runStops env l s).state.archive_reports = s.archive_reports ++ ap ∧
      { mon.report with finalized := true } ∈ ap := by
  induction l generalizing s with
  | nil => simp at hmem
  | cons v rest ih =>
    rcases List.mem_cons.mp hmem with rfl | hmem2
    · have hgv := hgood vid (List.mem_cons_self vid rest)
      rw [runStops_cons_ok env vid rest s hlk hlen hgv.1 hgv.2]
      obtain ⟨ap2, hap2⟩ := runStops_archive_only_appends env rest
        (archiveState s vid mon.report)
      refine ⟨{ mon.report with finalized := true } :: ap2, ?_, List.mem_cons_self _ _⟩
      rw [hap2, archiveState_archive]
      simp
    · have hvne : vid ≠ v := fun e => (List.nodup_cons.mp hnd).1 (e ▸ hmem2)
      have hkv : v ∈ trackedIds s := hkeys v (List.mem_cons_self v rest)
      have hlkv : (lookupId v s.live_monitors).isSome :=
        (lookupId_isSome_iff_mem v s.live_monitors).mpr hkv
      cases hlk2 : lookupId v s.live_monitors with
      | none =>
        rw [hlk2] at hlkv
        simp at hlkv
      | some monv =>
        have hgv := hgood v (List.mem_cons_self v rest)
        by_cases hlenv : 0 < monv.report.length
        · rw [runStops_cons_ok env v rest s hlk2 hlenv hgv.1 hgv.2]
          obtain ⟨ap, hap, hm⟩ := ih (archiveState s v monv.report)
            (List.nodup_cons.mp hnd).2 hmem2
            (fun v' hv' => by
              rw [archiveState_keys]
              exact hkeys v' (List.mem_cons_of_mem v hv'))
            (fun v' hv' => hgood v' (List.mem_cons_of_mem v hv'))
            (by rw [archiveState_lookup_ne s v vid monv.report hvne]; exact hlk)
          refine ⟨{ monv.report with finalized := true } :: ap, ?_,
            List.mem_cons_of_mem _ hm⟩
          rw [hap, archiveState_archive]
          simp
        · rw [runStops_cons_empty env v rest s hlk2 (Nat.eq_zero_of_not_pos hlenv)]
          exact ih s (List.nodup_cons.mp hnd).2 hmem2
            (fun v' hv' => hkeys v' (List.mem_cons_of_mem v hv'))
            (fun v' hv' => hgood v' (List.mem_cons_of_mem v hv'))
            hlk

/-- One cycle's handling of a stopped, still-tracked broadcast with a
non-empty report, when nothing in the cycle raises: terminate, finalize,
durable write and in-memory append all happen; the cycle does not abort; the
registry still holds the id (now showing the finalized report); and the new
archive list is the pruned extension of the old one by the appended entries,
among them this finalized report. -/
theorem cycle_stop_archives (env : Env) (s : SupState) (vid : String) (mon : Monitor)
    (hnd : (trackedIds s).Nodup)
    (hlk : lookupId vid (postSweep env s).live_monitors = some mon)
    (hnl : vid ∉ env.live)
    (hlen : 0 < mon.report.length)
    (hinfo : ∀ v, (env.getInfo v).isSome)
    (hgood : ∀ v, goodStop env v) :
    Event.terminate vid ∈ (updateOut env s).events ∧
    Event.finalize vid ∈ (updateOut env s).events ∧
    Event.writeReportFile vid (reportBasename mon.report.info ++ ".json.gz") ∈
      (updateOut env s).events ∧
    Event.appendArchive vid ∈ (updateOut env s).events ∧
    (updateOut env s).aborted = false ∧
    lookupId vid (updateOut env s).state.live_monitors =
      some ⟨{ mon.report with finalized := true }⟩ ∧
    ∃ ap, { mon.report with finalized := true } ∈ ap ∧
      (updateOut env s).state.archive_reports =
        (s.archive_reports ++ ap).filter
          (fun r => decide (r.info.start_timestamp >
            env.now - (env.historyDays : Int) * 86400)) := by
  have hnd2 : (trackedIds (postSweep env s)).Nodup := postSweep_keys_nodup env s hnd
  have h1 : (startsOut env s).aborted = false :=
    runStarts_not_aborted env _ _ (fun v _ => hinfo v)
  have hvkey : vid ∈ trackedIds (postSweep env s) :=
    (lookupId_isSome_iff_mem vid _).mp (by rw [hlk]; rfl)
  have hmemstop : vid ∈ stoppedLives env (postSweep env s) :=
    (mem_stoppedLives_iff env _ vid).mpr ⟨hvkey, hnl⟩
  have hndstop : (stoppedLives env (postSweep env s)).Nodup :=
    stoppedLives_nodup env _ hnd2
  have hkeys : ∀ v ∈ stoppedLives env (postSweep env s),
      v ∈ trackedIds (startsOut env s).state := fun v hv =>
    runStarts_keys_mono env _ _ ((mem_stoppedLives_iff env _ v).mp hv).1
  have hlk1 : lookupId vid (startsOut env s).state.live_monitors = some mon :=
    runStarts_lookup_of_some env _ _ hlk
  obtain ⟨ht, hf, hwf, hap, hlkf, _⟩ :=
    runStops_archives env (stoppedLives env (postSweep env s)) (startsOut env s).state
      hndstop hmemstop hkeys (fun v _ => hgood v) hlk1 hlen
  have h2 : (stopsOut env s).aborted = false :=
    (runStops_ok_general env _ _ (fun v hv => ⟨hkeys v hv, Or.inl (hgood v)⟩)).1
  have hev := updateOut_events_of_ok env s h1
  have hsev : ∀ e, e ∈ (stopsOut env s).events → e ∈ (updateOut env s).events := by
    intro e he
    rw [hev]
    exact List.mem_append_right _ he
  have hstate := updateOut_state_of_ok env s h1 h2
  refine ⟨hsev _ ht, hsev _ hf, hsev _ hwf, hsev _ hap, ?_, ?_, ?_⟩
  · unfold updateOut
    simp [h1, h2]
  · rw [hstate]
    exact hlkf
  · obtain ⟨ap, happ, hmem⟩ :=
      runStops_archive_append_mem env (stoppedLives env (postSweep env s))
        (startsOut env s).state hndstop hmemstop hkeys (fun v _ => hgood v) hlk1 hlen
    refine ⟨ap, hmem, ?_⟩
    rw [hstate]
    have happ2 : (stopsOut env s).state.archive_reports =
        (startsOut env s).state.archive_reports ++ ap := happ
    have hsa : (startsOut env s).state.archive_reports = s.archive_reports := by
      rw [startsOut, runStarts_archive]
      exact postSweep_archive env s
    show (stopsOut env s).state.archive_reports.filter _ = _
    rw [happ2, hsa]

/-- When the loaded snapshot equals the stored one, the grouper refresh is a
no-op on the state. -/
theorem refreshGroupers_state_of_eq (env : Env) (s : SupState)
    (h : env.groupers = s.groupers) : (refreshGroupers env s).1 = s := by
  simp [refreshGroupers, h]

/-- A tracked id that is not in this cycle's stopped set keeps its registry
entry Exactly as it was after the sweep. -/
theorem updateOut_lookup_stable (env : Env) (s : SupState) (vid : String) (mon : Monitor)
    (hlk : lookupId vid (postSweep env s).live_monitors = some mon)
    (hnstop : vid ∉ stoppedLives env (postSweep env s)) :
    lookupId vid (updateOut env s).state.live_monitors = some mon := by
  have hl1 : lookupId vid (startsOut env s).state.live_monitors = some mon :=
    runStarts_lookup_of_some env _ _ hlk
  have hl2 : lookupId vid (stopsOut env s).state.live_monitors = some mon :=
    runStops_lookup_of_not_mem env _ _ hnstop hl1
  unfold updateOut
  by_cases hb1 : (startsOut env s).aborted
  · simpa [hb1] using hl1
  · by_cases hb2 : (stopsOut env s).aborted
    · simpa [hb1, hb2] using hl2
    · simpa [hb1, hb2, prune_live_monitors] using hl2

/-- A tracked id not re-listed in `newLives` keeps exactly its number of
registry entries across the cycle. -/
theorem updateOut_count_stable (env : Env) (s : SupState) (vid : String)
    (htr : vid ∈ trackedIds (postSweep env s)) :
    List.count vid (trackedIds (updateOut env s).state) =
      List.count vid (trackedIds (postSweep env s)) := by
  have hnin : vid ∉ newLives env (postSweep env s) := fun h =>
    ((mem_newLives_iff env _ vid).mp h).2 htr
  obtain ⟨ks, hks, hsub⟩ :=
    runStarts_keys_decomp env (newLives env (postSweep env s)) (postSweep env s)
  have hc1 : List.count vid (trackedIds (startsOut env s).state) =
      List.count vid (trackedIds (postSweep env s)) := by
    have hks2 : trackedIds (startsOut env s).state =
        trackedIds (postSweep env s) ++ ks := hks
    rw [hks2, List.count_append,
      List.count_eq_zero.mpr (fun hc => hnin (hsub vid hc))]
    omega
  have hkeq : trackedIds (stopsOut env s).state = trackedIds (startsOut env s).state :=
    (runStops_preserves env _ _).2.1
  unfold updateOut
  by_cases hb1 : (startsOut env s).aborted
  · simpa [hb1] using hc1
  · by_cases hb2 : (stopsOut env s).aborted
    · rw [if_neg (by simp [hb1]), if_pos (by simp [hb2])]
      show List.count vid (trackedIds (stopsOut env s).state) = _
      rw [hkeq]
      exact hc1
    · rw [if_neg (by simp [hb1]), if_neg (by simp [hb2])]
      show List.count vid (trackedIds (prune env (stopsOut env s).state)) = _
      have hpk : trackedIds (prune env (stopsOut env s).state) =
          trackedIds (stopsOut env s).state := by
        simp [prune_live_monitors, trackedIds]
      rw [hpk, hkeq]
      exact hc1

/-! ## Claim theorems -/

/-- C9: `new = live - tracked` and `stopped = tracked - live`, both computed
against the same post-sweep registry, are disjoint — no BroadcastID is both
started and stopped in one cycle (an id whose monitor is started this cycle
is never sent terminate this cycle). -/
theorem C9_new_stopped_disjoint (env : Env) (s : SupState) (vid : String) :
    (vid ∈ newLives env (postSweep env s) → vid ∉ stoppedLives env (postSweep env s)) ∧
    (Event.start vid ∈ (updateOut env s).events →
      Event.terminate vid ∉ (updateOut env s).events) := by
  have hkey : vid ∈ newLives env (postSweep env s) →
      vid ∉ stoppedLives env (postSweep env s) := by
    intro h h2
    exact ((mem_newLives_iff env _ vid).mp h).2 ((mem_stoppedLives_iff env _ vid).mp h2).1
  refine ⟨hkey, fun hs ht => ?_⟩
  have hnew : vid ∈ newLives env (postSweep env s) := by
    rcases mem_updateOut_events env s hs with h1 | h2 | h3
    · obtain ⟨v, _, he⟩ := refreshGroupers_events_shape env s _ h1
      exact Event.noConfusion he
    · obtain ⟨v, hv, he | he⟩ := runStarts_events_shape env _ _ _ h2
      · exact Event.noConfusion he
      · injection he with hid
        rw [hid]
        exact hv
    · obtain ⟨v, hv, hsh⟩ := (runStops_preserves env _ _).2.2.2 _ h3
      rcases hsh with he | he | ⟨n, he⟩ | ⟨n, he⟩ | he <;> exact Event.noConfusion he
  have hstop : vid ∈ stoppedLives env (postSweep env s) := by
    rcases mem_updateOut_events env s ht with h1 | h2 | h3
    · obtain ⟨v, _, he⟩ := refreshGroupers_events_shape env s _ h1
      exact Event.noConfusion he
    · obtain ⟨v, hv, he | he⟩ := runStarts_events_shape env _ _ _ h2 <;>
        exact Event.noConfusion he
    · obtain ⟨v, hv, hsh⟩ := (runStops_preserves env _ _).2.2.2 _ h3
      rcases hsh with he | he | ⟨n, he⟩ | ⟨n, he⟩ | he
      · injection he with hid
        rw [hid]
        exact hv
      all_goals exact Event.noConfusion he
  exact hkey hnew hstop

/-- C9 witness: in a concrete cycle with `new = \x7b"N"\x7d` and
`stopped = \x7b"B"\x7d`, the new id `"N"` is not in the stopped set. -/
theorem C9_witness : "N" ∉ stoppedLives envFetchFail (postSweep envFetchFail sAB) :=
  (C9_new_stopped_disjoint envFetchFail sAB "N").1 (by decide)

/-- C7: after `prune()`, entries with `start_timestamp ≤ now - retention` are
gone from the in-memory archive list, entries with
`start_timestamp > now - retention` are retained, the retained entries are
unchanged and in order (the result is a sublist), and the registry and
grouper snapshot are untouched — `prune` touches no file. -/
theorem C7_prune (env : Env) (s : SupState) :
    (∀ r ∈ s.archive_reports,
        r.info.start_timestamp ≤ env.now - (env.historyDays : Int) * 86400 →
          r ∉ (prune env s).archive_reports) ∧
    (∀ r ∈ s.archive_reports,
        r.info.start_timestamp > env.now - (env.historyDays : Int) * 86400 →
          r ∈ (prune env s).archive_reports) ∧
    (prune env s).archive_reports.Sublist s.archive_reports ∧
    (prune env s).live_monitors = s.live_monitors ∧
    (prune env s).groupers = s.groupers := by
  refine ⟨?_, ?_, prune_sublist env s, rfl, rfl⟩
  · intro r _ hle hmem
    rw [mem_prune_iff] at hmem
    omega
  · intro r hr hgt
    rw [mem_prune_iff]
    exact ⟨hr, hgt⟩

/-- C7 witness: with cutoff `95200`, the entry at timestamp `0` is pruned
and the entry at timestamp `700000` is retained. -/
theorem C7_witness :
    oldReport ∉ (prune envPrune sArch).archive_reports ∧
    newReport ∈ (prune envPrune sArch).archive_reports :=
  ⟨(C7_prune envPrune sArch).1 oldReport (by decide) (by decide),
   (C7_prune envPrune sArch).2.1 newReport (by decide) (by decide)⟩

/-- C8 counterexample: for the id `"a:b"` (containing a colon) the cycle
writes `1970-01-01T000000_ab.json.gz` — the colon of the id is stripped too —
and does NOT write the name the claim demands, with the id left intact. -/
theorem C8_counterexample :
    Event.writeReportFile "a:b" "1970-01-01T000000_ab.json.gz" ∈
        (updateOut envColon sColon).events ∧
      Event.writeReportFile "a:b"
          ((removeColons (isoformatSeconds 0) ++ "_" ++ "a:b") ++ ".json.gz") ∉
        (updateOut envColon sColon).events := by
  decide

/-- C8 (amended): every report file written by a cycle is named
`removeColons(isoTime ++ "_" ++ id) ++ ".json.gz"` — the colon stripping
applies to the whole basename, BroadcastID included (for ids without colons
this coincides with the claim) — and every chat dump uses the same basename
with suffix `_chat.json.gz`. -/
theorem C8_filename_format (env : Env) (s : SupState) (vid name : String) :
    (Event.writeReportFile vid name ∈ (updateOut env s).events →
      ∃ ts : Int, ∃ bid : String,
        name = removeColons (isoformatSeconds ts ++ "_" ++ bid) ++ ".json.gz") ∧
    (Event.writeChatFile vid name ∈ (updateOut env s).events →
      ∃ ts : Int, ∃ bid : String,
        name = removeColons (isoformatSeconds ts ++ "_" ++ bid) ++ "_chat.json.gz") := by
  constructor
  · intro h
    rcases mem_updateOut_events env s h with h1 | h2 | h3
    · obtain ⟨v, _, he⟩ := refreshGroupers_events_shape env s _ h1
      exact Event.noConfusion he
    · obtain ⟨v, _, he | he⟩ := runStarts_events_shape env _ _ _ h2 <;>
        exact Event.noConfusion he
    · obtain ⟨info, hn⟩ := (runStops_file_names env _ _ _ h3).1 vid name rfl
      exact ⟨info.start_timestamp, info.id, hn⟩
  · intro h
    rcases mem_updateOut_events env s h with h1 | h2 | h3
    · obtain ⟨v, _, he⟩ := refreshGroupers_events_shape env s _ h1
      exact Event.noConfusion he
    · obtain ⟨v, _, he | he⟩ := runStarts_events_shape env _ _ _ h2 <;>
        exact Event.noConfusion he
    · obtain ⟨info, hn⟩ := (runStops_file_names env _ _ _ h3).2 vid name rfl
      exact ⟨info.start_timestamp, info.id, hn⟩

/-- C8 witness: the concrete file name written for the colon-id broadcast
has the amended form. -/
theorem C8_witness :
    ∃ ts : Int, ∃ bid : String,
      "1970-01-01T000000_ab.json.gz" =
        removeColons (isoformatSeconds ts ++ "_" ++ bid) ++ ".json.gz" :=
  (C8_filename_format envColon sColon "a:b" "1970-01-01T000000_ab.json.gz").1 (by decide)

/-- C1 counterexample: in the cycle in which `B` leaves the live set, `B`'s
monitor is terminated and its report archived, but `B` is NOT removed from
the registry — right after the cycle the registry is `["A", "B"]`, not the
live set `["A"]`. -/
theorem C1_counterexample :
    Event.terminate "B" ∈ (updateOut envLiveA sAB).events ∧
    Event.appendArchive "B" ∈ (updateOut envLiveA sAB).events ∧
    trackedIds (updateOut envLiveA sAB).state = ["A", "B"] ∧
    "B" ∉ envLiveA.live := by
  decide

/-- C1 (amended): in the cycle in which a tracked, still-running broadcast
leaves the live set, its monitor is terminated and its non-empty report is
archived, but the id stays in the registry through the end of that cycle;
it is removed by the dead-monitor sweep of a later cycle in which its
monitor no longer reports running (and, not being live, it is not
re-inserted). -/
theorem C1_stop_archive_deferred_removal (env env2 : Env) (s : SupState)
    (vid : String) (mon : Monitor)
    (hnd : (trackedIds s).Nodup)
    (hlk : lookupId vid (postSweep env s).live_monitors = some mon)
    (hnl : vid ∉ env.live)
    (hlen : 0 < mon.report.length)
    (hinfo : ∀ v, (env.getInfo v).isSome)
    (hgood : ∀ v, goodStop env v) :
    Event.terminate vid ∈ (updateOut env s).events ∧
    Event.appendArchive vid ∈ (updateOut env s).events ∧
    vid ∈ trackedIds (updateOut env s).state ∧
    (vid ∉ env2.running → vid ∉ env2.live →
      vid ∉ trackedIds (updateOut env2 (updateOut env s).state).state) := by
  obtain ⟨ht, _, _, hap, _, _, _⟩ :=
    cycle_stop_archives env s vid mon hnd hlk hnl hlen hinfo hgood
  have hvkey : vid ∈ trackedIds (postSweep env s) :=
    (lookupId_isSome_iff_mem vid _).mp (by rw [hlk]; rfl)
  exact ⟨ht, hap, updateOut_tracked_mono env s vid hvkey,
    fun h1 h2 => updateOut_not_tracked env2 _ vid h1 h2⟩

/-- C1 witness: the amended behaviour on the concrete two-cycle scenario. -/
theorem C1_witness :
    Event.terminate "B" ∈ (updateOut envLiveA sAB).events ∧
    Event.appendArchive "B" ∈ (updateOut envLiveA sAB).events ∧
    "B" ∈ trackedIds (updateOut envLiveA sAB).state ∧
    "B" ∉ trackedIds (updateOut envNextA (updateOut envLiveA sAB).state).state :=
  let h := C1_stop_archive_deferred_removal envLiveA envNextA sAB "B"
    ⟨⟨infoB, 2, 1, false⟩⟩ (by decide) (by decide) (by decide) (by decide)
    (fun _ => rfl) (fun _ => ⟨fun hc => absurd hc (by decide), rfl⟩)
  ⟨h.1, h.2.1, h.2.2.1, h.2.2.2 (by decide) (by decide)⟩

/-- C2 counterexample: one failing metadata fetch (`"N"`) aborts the whole
cycle — the other new/stopped ids are NOT processed: `B` is in the stopped
set yet is neither terminated nor archived in that cycle. -/
theorem C2_counterexample :
    "N" ∈ newLives envFetchFail (postSweep envFetchFail sAB) ∧
    "B" ∈ stoppedLives envFetchFail (postSweep envFetchFail sAB) ∧
    Event.terminate "B" ∉ (updateOut envFetchFail sAB).events ∧
    Event.appendArchive "B" ∉ (updateOut envFetchFail sAB).events := by
  decide

/-- C2 (amended): there is no per-id error handling in `update` — a failed
metadata fetch for one new id propagates and aborts the remainder of the
cycle: no stopped id is terminated or archived at all in that cycle, and the
failing id itself is not inserted into the registry (so it is recomputed as
new on the next cycle). -/
theorem C2_fetch_fail_aborts (env : Env) (s : SupState) (vid : String)
    (hmem : vid ∈ newLives env (postSweep env s))
    (hfail : env.getInfo vid = none) :
    (updateOut env s).aborted = true ∧
    (∀ v, Event.terminate v ∉ (updateOut env s).events) ∧
    (∀ v, Event.appendArchive v ∉ (updateOut env s).events) ∧
    vid ∉ trackedIds (updateOut env s).state := by
  have hab : (startsOut env s).aborted = true :=
    runStarts_aborted_of_fail env _ _ hmem hfail
  have hupd := updateOut_of_starts_aborted env s hab
  refine ⟨by rw [hupd], fun v hv => ?_, fun v hv => ?_, ?_⟩
  · rw [hupd] at hv
    rcases List.mem_append.mp hv with h1 | h2
    · obtain ⟨v', _, he⟩ := refreshGroupers_events_shape env s _ h1
      exact Event.noConfusion he
    · obtain ⟨v', _, he | he⟩ := runStarts_events_shape env _ _ _ h2 <;>
        exact Event.noConfusion he
  · rw [hupd] at hv
    rcases List.mem_append.mp hv with h1 | h2
    · obtain ⟨v', _, he⟩ := refreshGroupers_events_shape env s _ h1
      exact Event.noConfusion he
    · obtain ⟨v', _, he | he⟩ := runStarts_events_shape env _ _ _ h2 <;>
        exact Event.noConfusion he
  · rw [hupd]
    show vid ∉ trackedIds (startsOut env s).state
    intro hmem2
    rcases runStarts_keys_bound env _ _ hmem2 with h | h
    · exact ((mem_newLives_iff env _ vid).mp hmem).2 h
    · obtain ⟨_, hsome⟩ := h
      rw [hfail] at hsome
      simp at hsome

/-- C2 witness: the amended behaviour on the concrete scenario. -/
theorem C2_witness :
    (updateOut envFetchFail sAB).aborted = true ∧
    Event.terminate "B" ∉ (updateOut envFetchFail sAB).events ∧
    Event.appendArchive "B" ∉ (updateOut envFetchFail sAB).events ∧
    "N" ∉ trackedIds (updateOut envFetchFail sAB).state :=
  let h := C2_fetch_fail_aborts envFetchFail sAB "N" (by decide) (by decide)
  ⟨h.1, h.2.1 "B", h.2.2.1 "B", h.2.2.2⟩

/-- C3 counterexample: `B` stops with a non-empty report and its durable
write fails — the report is finalized but NOT appended to the in-memory
archive list, which stays empty. -/
theorem C3_counterexample :
    "B" ∈ stoppedLives envWriteFail (postSweep envWriteFail sAB) ∧
    Event.finalize "B" ∈ (updateOut envWriteFail sAB).events ∧
    Event.appendArchive "B" ∉ (updateOut envWriteFail sAB).events ∧
    (updateOut envWriteFail sAB).state.archive_reports = [] := by
  decide

/-- C3 (amended): when the durable report write for a stopped broadcast with
a non-empty report fails, the report has already been finalized, but it is
NOT appended to the in-memory archive list — the append comes after the
write, so the exception skips it and aborts the rest of the cycle. -/
theorem C3_write_fail_no_append (env : Env) (s : SupState) (vid : String) (mon : Monitor)
    (hnd : (trackedIds s).Nodup)
    (hlk : lookupId vid (postSweep env s).live_monitors = some mon)
    (hnl : vid ∉ env.live)
    (hlen : 0 < mon.report.length)
    (hinfo : ∀ v, (env.getInfo v).isSome)
    (hgood : ∀ v, v ≠ vid → goodStop env v)
    (hchat : env.dumpChat = true → env.chatWriteOk vid = true)
    (hw : env.reportWriteOk vid = false) :
    Event.finalize vid ∈ (updateOut env s).events ∧
    Event.appendArchive vid ∉ (updateOut env s).events ∧
    (updateOut env s).aborted = true := by
  have h1 : (startsOut env s).aborted = false :=
    runStarts_not_aborted env _ _ (fun v _ => hinfo v)
  have hnd2 := postSweep_keys_nodup env s hnd
  have hvkey : vid ∈ trackedIds (postSweep env s) :=
    (lookupId_isSome_iff_mem vid _).mp (by rw [hlk]; rfl)
  have hmemstop : vid ∈ stoppedLives env (postSweep env s) :=
    (mem_stoppedLives_iff env _ vid).mpr ⟨hvkey, hnl⟩
  obtain ⟨hf, hnap, hab2⟩ :=
    runStops_write_fail env (stoppedLives env (postSweep env s)) (startsOut env s).state
      (stoppedLives_nodup env _ hnd2) hmemstop
      (fun v hv => runStarts_keys_mono env _ _ ((mem_stoppedLives_iff env _ v).mp hv).1)
      (fun v _ hne => hgood v hne) hchat hw
      (runStarts_lookup_of_some env _ _ hlk) hlen
  have hev := updateOut_events_of_ok env s h1
  refine ⟨by rw [hev]; exact List.mem_append_right _ hf, ?_, ?_⟩
  · rw [hev]
    intro hc
    rcases List.mem_append.mp hc with hcl | hcr
    · rcases List.mem_append.mp hcl with hr1 | hr2
      · obtain ⟨v', _, he⟩ := refreshGroupers_events_shape env s _ hr1
        exact Event.noConfusion he
      · obtain ⟨v', _, he | he⟩ := runStarts_events_shape env _ _ _ hr2 <;>
          exact Event.noConfusion he
    · exact hnap hcr
  · have hab2w : (stopsOut env s).aborted = true := hab2
    unfold updateOut
    simp [h1, hab2w]

/-- C3 witness: the amended behaviour on the concrete scenario. -/
theorem C3_witness :
    Event.finalize "B" ∈ (updateOut envWriteFail sAB).events ∧
    Event.appendArchive "B" ∉ (updateOut envWriteFail sAB).events ∧
    (updateOut envWriteFail sAB).aborted = true :=
  C3_write_fail_no_append envWriteFail sAB "B" ⟨⟨infoB, 2, 1, false⟩⟩
    (by decide) (by decide) (by decide) (by decide) (fun _ => rfl)
    (fun v hv => ⟨fun hc => absurd hc (by decide), by simp [envWriteFail, hv]⟩)
    (fun hc => absurd hc (by decide)) (by decide)

/-- C5: a broadcast that is both live and in the post-sweep registry gets no
start and no stop/terminate action: its registry entry is untouched and its
key count is unchanged, so a monitor inserted in an earlier cycle that is
still live and running is never re-inserted or started a second time. -/
theorem C5_live_tracked_stable (env : Env) (s : SupState) (vid : String) (mon : Monitor)
    (hlive : vid ∈ env.live)
    (hlk : lookupId vid (postSweep env s).live_monitors = some mon) :
    Event.start vid ∉ (updateOut env s).events ∧
    Event.terminate vid ∉ (updateOut env s).events ∧
    lookupId vid (updateOut env s).state.live_monitors = some mon ∧
    List.count vid (trackedIds (updateOut env s).state) =
      List.count vid (trackedIds (postSweep env s)) := by
  have htr : vid ∈ trackedIds (postSweep env s) :=
    (lookupId_isSome_iff_mem vid _).mp (by rw [hlk]; rfl)
  have hnnew : vid ∉ newLives env (postSweep env s) := fun h =>
    ((mem_newLives_iff env _ vid).mp h).2 htr
  have hnstop : vid ∉ stoppedLives env (postSweep env s) := fun h =>
    ((mem_stoppedLives_iff env _ vid).mp h).2 hlive
  refine ⟨?_, ?_, updateOut_lookup_stable env s vid mon hlk hnstop,
    updateOut_count_stable env s vid htr⟩
  · intro hc
    rcases mem_updateOut_events env s hc with h1 | h2 | h3
    · obtain ⟨v, _, he⟩ := refreshGroupers_events_shape env s _ h1
      exact Event.noConfusion he
    · obtain ⟨v, hv, he | he⟩ := runStarts_events_shape env _ _ _ h2
      · exact Event.noConfusion he
      · injection he with hid
        exact hnnew (hid ▸ hv)
    · obtain ⟨v, hv, hsh⟩ := (runStops_preserves env _ _).2.2.2 _ h3
      rcases hsh with he | he | ⟨n, he⟩ | ⟨n, he⟩ | he <;> exact Event.noConfusion he
  · intro hc
    rcases mem_updateOut_events env s hc with h1 | h2 | h3
    · obtain ⟨v, _, he⟩ := refreshGroupers_events_shape env s _ h1
      exact Event.noConfusion he
    · obtain ⟨v, hv, he | he⟩ := runStarts_events_shape env _ _ _ h2 <;>
        exact Event.noConfusion he
    · obtain ⟨v, hv, hsh⟩ := (runStops_preserves env _ _).2.2.2 _ h3
      rcases hsh with he | he | ⟨n, he⟩ | ⟨n, he⟩ | he
      · injection he with hid
        exact hnstop (hid ▸ hv)
      all_goals exact Event.noConfusion he

/-- C5 witness: `A`, live and tracked, is untouched by the concrete cycle. -/
theorem C5_witness :
    Event.start "A" ∉ (updateOut envLiveA sAB).events ∧
    Event.terminate "A" ∉ (updateOut envLiveA sAB).events ∧
    lookupId "A" (updateOut envLiveA sAB).state.live_monitors =
      some ⟨⟨infoA, 3, 1, false⟩⟩ ∧
    List.count "A" (trackedIds (updateOut envLiveA sAB).state) =
      List.count "A" (trackedIds (postSweep envLiveA sAB)) :=
  C5_live_tracked_stable envLiveA sAB "A" ⟨⟨infoA, 3, 1, false⟩⟩ (by decide) (by decide)

/-- C6: a stopped broadcast whose report is empty at stop time is discarded
silently — it is terminated, but never finalized, no report or chat file of
its is written, nothing is appended to the in-memory archive list for it,
and no exception is raised in the cycle. -/
theorem C6_empty_report_silent (env : Env) (s : SupState) (vid : String) (mon : Monitor)
    (hlk : lookupId vid (postSweep env s).live_monitors = some mon)
    (hnl : vid ∉ env.live)
    (hlen : mon.report.length = 0)
    (hinfo : ∀ v, (env.getInfo v).isSome)
    (hgood : ∀ v, goodStop env v) :
    Event.terminate vid ∈ (updateOut env s).events ∧
    Event.finalize vid ∉ (updateOut env s).events ∧
    Event.appendArchive vid ∉ (updateOut env s).events ∧
    (∀ n, Event.writeReportFile vid n ∉ (updateOut env s).events) ∧
    (∀ n, Event.writeChatFile vid n ∉ (updateOut env s).events) ∧
    (updateOut env s).aborted = false := by
  have h1 : (startsOut env s).aborted = false :=
    runStarts_not_aborted env _ _ (fun v _ => hinfo v)
  have hvkey : vid ∈ trackedIds (postSweep env s) :=
    (lookupId_isSome_iff_mem vid _).mp (by rw [hlk]; rfl)
  have hmemstop : vid ∈ stoppedLives env (postSweep env s) :=
    (mem_stoppedLives_iff env _ vid).mpr ⟨hvkey, hnl⟩
  have hkeys : ∀ v ∈ stoppedLives env (postSweep env s),
      v ∈ trackedIds (startsOut env s).state := fun v hv =>
    runStarts_keys_mono env _ _ ((mem_stoppedLives_iff env _ v).mp hv).1
  have hlk1 : lookupId vid (startsOut env s).state.live_monitors = some mon :=
    runStarts_lookup_of_some env _ _ hlk
  have hok := runStops_ok_general env (stoppedLives env (postSweep env s))
    (startsOut env s).state (fun v hv => ⟨hkeys v hv, Or.inl (hgood v)⟩)
  obtain ⟨hnf, hna, hncw, hnrw⟩ :=
    runStops_empty_silent env (stoppedLives env (postSweep env s))
      (startsOut env s).state hlk1 hlen
  have hev := updateOut_events_of_ok env s h1
  refine ⟨?_, ?_, ?_, fun n => ?_, fun n => ?_, ?_⟩
  · rw [hev]
    exact List.mem_append_right _ (hok.2 vid hmemstop)
  · intro hc
    rcases mem_updateOut_events env s hc with hr1 | hr2 | hr3
    · obtain ⟨v, _, he⟩ := refreshGroupers_events_shape env s _ hr1
      exact Event.noConfusion he
    · obtain ⟨v, _, he | he⟩ := runStarts_events_shape env _ _ _ hr2 <;>
        exact Event.noConfusion he
    · exact hnf hr3
  · intro hc
    rcases mem_updateOut_events env s hc with hr1 | hr2 | hr3
    · obtain ⟨v, _, he⟩ := refreshGroupers_events_shape env s _ hr1
      exact Event.noConfusion he
    · obtain ⟨v, _, he | he⟩ := runStarts_events_shape env _ _ _ hr2 <;>
        exact Event.noConfusion he
    · exact hna hr3
  · intro hc
    rcases mem_updateOut_events env s hc with hr1 | hr2 | hr3
    · obtain ⟨v, _, he⟩ := refreshGroupers_events_shape env s _ hr1
      exact Event.noConfusion he
    · obtain ⟨v, _, he | he⟩ := runStarts_events_shape env _ _ _ hr2 <;>
        exact Event.noConfusion he
    · exact hnrw n hr3
  · intro hc
    rcases mem_updateOut_events env s hc with hr1 | hr2 | hr3
    · obtain ⟨v, _, he⟩ := refreshGroupers_events_shape env s _ hr1
      exact Event.noConfusion he
    · obtain ⟨v, _, he | he⟩ := runStarts_events_shape env _ _ _ hr2 <;>
        exact Event.noConfusion he
    · exact hncw n hr3
  · have h2 : (stopsOut env s).aborted = false := hok.1
    unfold updateOut
    simp [h1, h2]

/-- C6 witness: `B` stops with an empty report in the concrete cycle and is
discarded silently. -/
theorem C6_witness :
    Event.terminate "B" ∈ (updateOut envStillRunning sEmptyB).events ∧
    Event.finalize "B" ∉ (updateOut envStillRunning sEmptyB).events ∧
    Event.appendArchive "B" ∉ (updateOut envStillRunning sEmptyB).events ∧
    Event.writeReportFile "B" (reportBasename infoB ++ ".json.gz") ∉
      (updateOut envStillRunning sEmptyB).events ∧
    (updateOut envStillRunning sEmptyB).aborted = false :=
  let h := C6_empty_report_silent envStillRunning sEmptyB "B" ⟨⟨infoB, 0, 1, false⟩⟩
    (by decide) (by decide) (by decide) (fun _ => rfl)
    (fun _ => ⟨fun hc => absurd hc (by decide), rfl⟩)
  ⟨h.1, h.2.1, h.2.2.1, h.2.2.2.1 _, h.2.2.2.2.2⟩

/-- C4: when the loaded grouper snapshot differs by value from the stored
one, every running registered monitor's report gets a `set_groupers`
propagation call with the new snapshot and the new snapshot is recorded as
current; when it is equal, no report gets a propagation call; and a monitor
started in the same cycle receives the new snapshot exactly once, at
construction, never via a propagation call. -/
theorem C4_grouper_propagation (env : Env) (s : SupState) :
    (env.groupers ≠ s.groupers →
      ∀ vid m, (vid, m) ∈ s.live_monitors → vid ∈ env.running →
        Event.setGroupersPropagate vid env.groupers ∈ (updateOut env s).events) ∧
    (updateOut env s).state.groupers = env.groupers ∧
    (env.groupers = s.groupers →
      ∀ vid g, Event.setGroupersPropagate vid g ∉ (updateOut env s).events) ∧
    (∀ vid, vid ∈ newLives env (postSweep env s) → vid ∉ trackedIds s →
      (∀ v ∈ newLives env (postSweep env s), (env.getInfo v).isSome) →
        Event.setGroupersConstruct vid env.groupers ∈ (updateOut env s).events ∧
        (updateOut env s).events.countP (isConstructFor vid) = 1 ∧
        (∀ g, Event.setGroupersPropagate vid g ∉ (updateOut env s).events)) := by
  refine ⟨?_, updateOut_groupers env s, ?_, ?_⟩
  · intro hne vid m hm _
    have hp := refreshGroupers_propagate_mem env s hne hm
    rcases updateOut_events_decomp env s with hd | hd <;> rw [hd]
    · exact List.mem_append_left _ (List.mem_append_left _ hp)
    · exact List.mem_append_left _ hp
  · intro heq vid g hc
    rcases mem_updateOut_events env s hc with h1 | h2 | h3
    · rw [refreshGroupers_events_of_eq env s heq] at h1
      simp at h1
    · obtain ⟨v, _, he | he⟩ := runStarts_events_shape env _ _ _ h2 <;>
        exact Event.noConfusion he
    · obtain ⟨v, _, hsh⟩ := (runStops_preserves env _ _).2.2.2 _ h3
      rcases hsh with he | he | ⟨n, he⟩ | ⟨n, he⟩ | he <;> exact Event.noConfusion he
  · intro vid hmem hnotr hall
    have h1 : (startsOut env s).aborted = false := runStarts_not_aborted env _ _ hall
    have hev := updateOut_events_of_ok env s h1
    have hcm := runStarts_construct_mem env (newLives env (postSweep env s))
      (postSweep env s) hall hmem
    rw [postSweep_groupers] at hcm
    refine ⟨?_, ?_, ?_⟩
    · rw [hev]
      exact List.mem_append_left _ (List.mem_append_right _ hcm)
    · rw [hev, List.countP_append, List.countP_append]
      have hzr : (refreshGroupers env s).2.countP (isConstructFor vid) = 0 := by
        refine List.countP_eq_zero.mpr (fun e he => ?_)
        obtain ⟨v, _, he2⟩ := refreshGroupers_events_shape env s _ he
        subst he2
        simp [isConstructFor]
      have hzs : (stopsOut env s).events.countP (isConstructFor vid) = 0 := by
        refine List.countP_eq_zero.mpr (fun e he => ?_)
        obtain ⟨v, _, hsh⟩ := (runStops_preserves env _ _).2.2.2 _ he
        rcases hsh with he2 | he2 | ⟨n, he2⟩ | ⟨n, he2⟩ | he2 <;> subst he2 <;>
          simp [isConstructFor]
      have hone : (startsOut env s).events.countP (isConstructFor vid) = 1 :=
        runStarts_construct_count_one env _ _ (newLives_nodup env _) hmem hall
      rw [hzr, hzs, hone]
    · intro g hc
      rcases mem_updateOut_events env s hc with hr1 | hr2 | hr3
      · obtain ⟨v, hvtr, he⟩ := refreshGroupers_events_shape env s _ hr1
        injection he with hid _
        exact hnotr (hid ▸ hvtr)
      · obtain ⟨v, _, he | he⟩ := runStarts_events_shape env _ _ _ hr2 <;>
          exact Event.noConfusion he
      · obtain ⟨v, _, hsh⟩ := (runStops_preserves env _ _).2.2.2 _ hr3
        rcases hsh with he | he | ⟨n, he⟩ | ⟨n, he⟩ | he <;> exact Event.noConfusion he

/-- C4 witness: a concrete grouper change: `A` (running, registered) gets
the propagation call, the snapshot is recorded, and the new live `C` gets
exactly one construction-time call. -/
theorem C4_witness :
    Event.setGroupersPropagate "A" 2 ∈ (updateOut envGroup sAB).events ∧
    (updateOut envGroup sAB).state.groupers = 2 ∧
    Event.setGroupersConstruct "C" 2 ∈ (updateOut envGroup sAB).events ∧
    (updateOut envGroup sAB).events.countP (isConstructFor "C") = 1 :=
  let h := C4_grouper_propagation envGroup sAB
  let h4 := h.2.2.2 "C" (by decide) (by decide) (fun _ _ => rfl)
  ⟨h.1 (by decide) "A" ⟨⟨infoA, 3, 1, false⟩⟩ (by decide) (by decide),
    h.2.1, h4.1, h4.2.1⟩

/-- C10: a monitor terminated in cycle N (its non-empty report archived)
stays in the registry; if in cycle N+1 it still reports running and its id
is still not live, cycle N+1 terminates it again, finalizes the
already-finalized report again, rewrites its archive file and appends the
same report a second time — the in-memory archive list then contains the
finalized report at least twice. -/
theorem C10_double_archive (env env2 : Env) (s : SupState) (vid : String) (mon : Monitor)
    (hnd : (trackedIds s).Nodup)
    (hlk : lookupId vid (postSweep env s).live_monitors = some mon)
    (hnl : vid ∉ env.live)
    (hlen : 0 < mon.report.length)
    (hinfo : ∀ v, (env.getInfo v).isSome)
    (hgood : ∀ v, goodStop env v)
    (hts : mon.report.info.start_timestamp > env.now - (env.historyDays : Int) * 86400)
    (hrun2 : vid ∈ env2.running)
    (hnl2 : vid ∉ env2.live)
    (hinfo2 : ∀ v, (env2.getInfo v).isSome)
    (hgood2 : ∀ v, goodStop env2 v)
    (hg2 : env2.groupers = env.groupers)
    (hts2 : mon.report.info.start_timestamp > env2.now - (env2.historyDays : Int) * 86400) :
    lookupId vid (updateOut env s).state.live_monitors =
      some ⟨{ mon.report with finalized := true }⟩ ∧
    Event.terminate vid ∈ (updateOut env2 (updateOut env s).state).events ∧
    Event.finalize vid ∈ (updateOut env2 (updateOut env s).state).events ∧
    Event.writeReportFile vid (reportBasename mon.report.info ++ ".json.gz") ∈
      (updateOut env2 (updateOut env s).state).events ∧
    Event.appendArchive vid ∈ (updateOut env2 (updateOut env s).state).events ∧
    2 ≤ List.count { mon.report with finalized := true }
          (updateOut env2 (updateOut env s).state).state.archive_reports := by
  obtain ⟨_, _, _, _, _, hlkf, ap, hmemap, harch⟩ :=
    cycle_stop_archives env s vid mon hnd hlk hnl hlen hinfo hgood
  have hnd1 : (trackedIds (updateOut env s).state).Nodup := updateOut_keys_nodup env s hnd
  have hgeq : env2.groupers = (updateOut env s).state.groupers := by
    rw [updateOut_groupers]
    exact hg2
  have hr1 : (refreshGroupers env2 (updateOut env s).state).1 = (updateOut env s).state :=
    refreshGroupers_state_of_eq env2 _ hgeq
  have hlk2 : lookupId vid (postSweep env2 (updateOut env s).state).live_monitors =
      some ⟨{ mon.report with finalized := true }⟩ := by
    show lookupId vid
      (sweepDead env2 (refreshGroupers env2 (updateOut env s).state).1).live_monitors = _
    rw [hr1, sweepDead_lookup, if_pos hrun2]
    exact hlkf
  obtain ⟨ht2, hf2, hw2, hap2, _, _, ap2, hmemap2, harch2⟩ :=
    cycle_stop_archives env2 (updateOut env s).state vid
      ⟨{ mon.report with finalized := true }⟩ hnd1 hlk2 hnl2 hlen hinfo2 hgood2
  refine ⟨hlkf, ht2, hf2, hw2, hap2, ?_⟩
  rw [harch2]
  have hpr2 : (fun r => decide (r.info.start_timestamp >
      env2.now - (env2.historyDays : Int) * 86400))
        ({ mon.report with finalized := true } : Report) = true := by
    simpa using hts2
  have hcf := @List.count_filter Report _ _
    (fun r => decide (r.info.start_timestamp >
      env2.now - (env2.historyDays : Int) * 86400))
    { mon.report with finalized := true }
    ((updateOut env s).state.archive_reports ++ ap2) hpr2
  rw [hcf, List.count_append]
  have hc1 : 0 < List.count { mon.report with finalized := true }
      (updateOut env s).state.archive_reports := by
    refine List.count_pos_iff.mpr ?_
    rw [harch]
    refine List.mem_filter.mpr ⟨List.mem_append_right _ hmemap, ?_⟩
    simpa using hts
  have hc2 : 0 < List.count { mon.report with finalized := true } ap2 :=
    List.count_pos_iff.mpr hmemap2
  omega

/-- C10 witness: the concrete two-cycle scenario in which `B`'s monitor is
still "running" in the cycle after its termination: `B` is archived twice. -/
theorem C10_witness :
    Event.terminate "B" ∈
      (updateOut envStillRunning (updateOut envLiveA sAB).state).events ∧
    Event.finalize "B" ∈
      (updateOut envStillRunning (updateOut envLiveA sAB).state).events ∧
    Event.appendArchive "B" ∈
      (updateOut envStillRunning (updateOut envLiveA sAB).state).events ∧
    2 ≤ List.count (⟨infoB, 2, 1, true⟩ : Report)
          (updateOut envStillRunning (updateOut envLiveA sAB).state).state.archive_reports :=
  let h := C10_double_archive envLiveA envStillRunning sAB "B" ⟨⟨infoB, 2, 1, false⟩⟩
    (by decide) (by decide) (by decide) (by decide) (fun _ => rfl)
    (fun _ => ⟨fun hc => absurd hc (by decide), rfl⟩) (by decide)
    (by decide) (by decide) (fun _ => rfl)
    (fun _ => ⟨fun hc => absurd hc (by decide), rfl⟩) (by decide) (by decide)
  ⟨h.2.1, h.2.2.1, h.2.2.2.2.1, h.2.2.2.2.2⟩

end Matsuri
